import Mathlib

/-!
Verification of the table-sync contract of `pages/table_view.py`
(`production_scheduler_v2`).

The Python module keeps an "order book" table in a pandas DataFrame and
synchronises it with a remote Supabase table.  This file gives a shallow
embedding of its pure data contract:

* Python cell values (`None`, strings, floats, ints, `datetime.date`,
  `pd.NaT`, `pd.NA`) are the inductive type `Val`;
* `parse_date`, `parse_price`, `normalize_df` (plus the row mask applied
  right after it in the page's Apply handler) become Lean functions on `Val`
  rows;
* the remote store is a list of `StoreRow`s; `save_data` and `load_data`
  become functions on it.  The PostgREST `neq` filter used for the
  delete-all idiom is modelled with SQL three-valued semantics (a `NULL`
  column and a column equal to the compared value are both *not* matched).

Floats are modelled as `PyF` (NaN, ±infinity, or a rational); Python's
binary floating point is idealised as exact rational arithmetic, which is
sound for every claim here (no claim depends on rounding).  `repr` of a
float is modelled as an exact decimal expansion, and `float(...)` string
parsing as decimal parsing; Python floats are dyadic so both exist.
`pd.to_datetime`'s lenient parser is modelled as ISO-8601 calendar-date
parsing (the only formats produced or consumed by this program), including
pandas' `Timestamp` range restriction (midnights from 1677-09-22 to
2262-04-11 representable in signed 64-bit nanoseconds).
-/

/-! ## Python `str.strip` -/

/-- ASCII whitespace stripped by Python `str.strip()` (and ignored by
`float(...)`). -/
def pySpace (c : Char) : Bool :=
  c = ' ' || c = '\t' || c = '\n' || c = '\x0d' || c = '\x0b' || c = '\x0c'

/-- Python `str.strip()` on a list of characters: drop whitespace from both
ends. -/
def stripL (l : List Char) : List Char :=
  (l.dropWhile pySpace).rdropWhile pySpace

/-- Python `str.strip()`. -/
def pyStrip (s : String) : String :=
  String.mk (stripL s.data)

theorem stripL_idem (l : List Char) : stripL (stripL l) = stripL l := by
  unfold stripL
  have hpre : (l.dropWhile pySpace).rdropWhile pySpace <+: l.dropWhile pySpace :=
    List.rdropWhile_prefix _ _
  have hfront :
      ((l.dropWhile pySpace).rdropWhile pySpace).dropWhile pySpace
        = (l.dropWhile pySpace).rdropWhile pySpace := by
    rw [List.dropWhile_eq_self_iff]
    intro hl hp
    have hlen : 0 < (l.dropWhile pySpace).length :=
      Nat.lt_of_lt_of_le hl hpre.length_le
    apply List.dropWhile_get_zero_not pySpace l hlen
    simpa only [List.get_eq_getElem, List.IsPrefix.getElem hpre hl] using hp
  rw [hfront, List.rdropWhile_idempotent]

theorem stripL_eq_self (l : List Char) (h : ∀ c ∈ l, ¬ pySpace c) :
    stripL l = l := by
  unfold stripL
  have h1 : l.dropWhile pySpace = l := by
    rw [List.dropWhile_eq_self_iff]
    intro hl
    exact h _ (l.get_mem _ _)
  rw [h1, List.rdropWhile_eq_self_iff]
  intro hl
  exact h _ (l.getLast_mem hl)

theorem pyStrip_idem (s : String) : pyStrip (pyStrip s) = pyStrip s := by
  unfold pyStrip
  simp [stripL_idem]

/-! ## Decimal digit printing and parsing

`Nat.digitChar`-based decimal printing of naturals, used to model Python's
`str` of ints/floats and `date.isoformat`, together with the parsing
direction used to model `float(...)` and `pd.to_datetime`. -/

/-- The characters of the decimal representation of `n` (no sign, no
leading zeros; `0` prints as `"0"`). -/
def natDigs (n : Nat) : List Char :=
  if h : n < 10 then [Nat.digitChar n]
  else natDigs (n / 10) ++ [Nat.digitChar (n % 10)]
termination_by n
decreasing_by
  exact Nat.div_lt_self (by omega) (by norm_num)

/-- Decimal value of a digit character. -/
def digVal (c : Char) : Nat := c.toNat - 48

/-- Decimal value of a list of digit characters (most significant first). -/
def digsVal (l : List Char) : Nat :=
  l.foldl (fun a c => 10 * a + digVal c) 0

theorem digsVal_append (l₁ l₂ : List Char) :
    digsVal (l₁ ++ l₂) = (l₂.foldl (fun a c => 10 * a + digVal c) (digsVal l₁)) := by
  unfold digsVal
  rw [List.foldl_append]

theorem digsVal_concat (l : List Char) (c : Char) :
    digsVal (l ++ [c]) = 10 * digsVal l + digVal c := by
  rw [digsVal_append]
  rfl

theorem digVal_digitChar {k : Nat} (h : k < 10) : digVal (Nat.digitChar k) = k := by
  interval_cases k <;> rfl

theorem isDigit_digitChar {k : Nat} (h : k < 10) : (Nat.digitChar k).isDigit = true := by
  interval_cases k <;> rfl

theorem digsVal_natDigs (n : Nat) : digsVal (natDigs n) = n := by
  induction n using Nat.strong_induction_on with
  | _ n ih =>
    rw [natDigs]
    by_cases h : n < 10
    · rw [dif_pos h]
      show digsVal ([] ++ [Nat.digitChar n]) = n
      rw [digsVal_concat]
      simp [digsVal, digVal_digitChar h]
    · rw [dif_neg h]
      rw [digsVal_concat, ih (n / 10) (Nat.div_lt_self (by omega) (by norm_num)),
        digVal_digitChar (Nat.mod_lt n (by norm_num))]
      omega

theorem natDigs_digits (n : Nat) : ∀ c ∈ natDigs n, c.isDigit = true := by
  induction n using Nat.strong_induction_on with
  | _ n ih =>
    rw [natDigs]
    by_cases h : n < 10
    · rw [dif_pos h]
      intro c hc
      simp only [List.mem_singleton] at hc
      subst hc
      exact isDigit_digitChar h
    · rw [dif_neg h]
      intro c hc
      rw [List.mem_append] at hc
      rcases hc with hc | hc
      · exact ih (n / 10) (Nat.div_lt_self (by omega) (by norm_num)) c hc
      · simp only [List.mem_singleton] at hc
        subst hc
        exact isDigit_digitChar (Nat.mod_lt n (by norm_num))

theorem natDigs_ne_nil (n : Nat) : natDigs n ≠ [] := by
  rw [natDigs]
  by_cases h : n < 10
  · rw [dif_pos h]; simp
  · rw [dif_neg h]; simp

theorem natDigs_length_le (n k : Nat) (hn : n < 10 ^ k) (hk : 1 ≤ k) :
    (natDigs n).length ≤ k := by
  induction n using Nat.strong_induction_on generalizing k with
  | _ n ih =>
    rw [natDigs]
    by_cases h : n < 10
    · rw [dif_pos h]
      simpa using hk
    · rw [dif_neg h]
      have hk2 : 2 ≤ k := by
        by_contra hc
        interval_cases k
        · simp at hn; omega
      have hdiv : n / 10 < 10 ^ (k - 1) := by
        rw [Nat.div_lt_iff_lt_mul (by norm_num)]
        calc n < 10 ^ k := hn
        _ = 10 ^ (k - 1) * 10 := by
              rw [← pow_succ]
              congr 1
              omega
      have := ih (n / 10) (Nat.div_lt_self (by omega) (by norm_num)) (k - 1) hdiv (by omega)
      rw [List.length_append]
      simp only [List.length_singleton]
      omega

/-- Zero-pad a digit string on the left to width `w`. -/
def padLeft (w : Nat) (l : List Char) : List Char :=
  List.replicate (w - l.length) '0' ++ l

theorem digsVal_replicate_zero (k : Nat) (l : List Char) :
    digsVal (List.replicate k '0' ++ l) = digsVal l := by
  induction k with
  | zero => simp
  | succ m ih =>
    rw [List.replicate_succ, List.cons_append]
    show digsVal (List.replicate m '0' ++ l) = digsVal l
    exact ih

theorem digsVal_padLeft (w : Nat) (l : List Char) :
    digsVal (padLeft w l) = digsVal l :=
  digsVal_replicate_zero _ _

theorem padLeft_digits (w : Nat) (l : List Char) (h : ∀ c ∈ l, c.isDigit = true) :
    ∀ c ∈ padLeft w l, c.isDigit = true := by
  intro c hc
  rw [padLeft, List.mem_append] at hc
  rcases hc with hc | hc
  · rw [List.eq_of_mem_replicate hc]; rfl
  · exact h c hc

theorem padLeft_length (w : Nat) (l : List Char) (h : l.length ≤ w) :
    (padLeft w l).length = w := by
  rw [padLeft, List.length_append, List.length_replicate]
  omega

theorem padLeft_ne_nil (w : Nat) (l : List Char) (h : l ≠ []) :
    padLeft w l ≠ [] := by
  rw [padLeft]
  intro hc
  rw [List.append_eq_nil] at hc
  exact h hc.2

/-! ## Calendar dates (`datetime.date`) -/

/-- A calendar date, as held by `datetime.date` (year, month, day). -/
structure Date where
  year : Nat
  month : Nat
  day : Nat
deriving DecidableEq, Repr

/-- Leap-year rule of the proleptic Gregorian calendar. -/
def isLeap (y : Nat) : Bool :=
  y % 4 = 0 && (y % 100 ≠ 0 || y % 400 = 0)

/-- Days in a month of the Gregorian calendar. -/
def daysInMonth (y m : Nat) : Nat :=
  if m = 2 then (if isLeap y then 29 else 28)
  else if m = 4 || m = 6 || m = 9 || m = 11 then 30
  else 31

/-- Validity of a calendar date (`datetime.date` invariant; pandas also
rejects invalid components such as a February 30th when parsing). -/
def dateValid (d : Date) : Bool :=
  1 ≤ d.year && 1 ≤ d.month && d.month ≤ 12 && 1 ≤ d.day && d.day ≤ daysInMonth d.year d.month

/-- Lexicographic comparison of dates. -/
def dateLE (a b : Date) : Bool :=
  a.year < b.year || (a.year = b.year &&
    (a.month < b.month || (a.month = b.month && a.day ≤ b.day)))

/-- The calendar dates whose midnight fits in pandas' signed 64-bit
nanosecond `Timestamp`: 1677-09-22 through 2262-04-11.  `pd.to_datetime`
coerces anything outside this window to `NaT`. -/
def dateInTsRange (d : Date) : Bool :=
  dateLE ⟨1677, 9, 22⟩ d && dateLE d ⟨2262, 4, 11⟩

/-- Component validity plus pandas `Timestamp` range. -/
def dateOk (d : Date) : Bool :=
  dateValid d && dateInTsRange d

/-- `date.isoformat()` / `str(date)`: `YYYY-MM-DD`, zero-padded. -/
def isoDateL (d : Date) : List Char :=
  padLeft 4 (natDigs d.year) ++ '-' :: (padLeft 2 (natDigs d.month) ++ '-' :: padLeft 2 (natDigs d.day))

def isoDate (d : Date) : String :=
  String.mk (isoDateL d)

theorem isoDateL_chars (d : Date) :
    ∀ c ∈ isoDateL d, c.isDigit = true ∨ c = '-' := by
  intro c hc
  rw [isoDateL, List.mem_append, List.mem_cons] at hc
  rcases hc with hc | hc | hc
  · exact Or.inl (padLeft_digits _ _ (natDigs_digits _) c hc)
  · exact Or.inr hc
  · rw [List.mem_append, List.mem_cons] at hc
    rcases hc with hc | hc | hc
    · exact Or.inl (padLeft_digits _ _ (natDigs_digits _) c hc)
    · exact Or.inr hc
    · exact Or.inl (padLeft_digits _ _ (natDigs_digits _) c hc)

theorem isDigit_not_pySpace {c : Char} (h : c.isDigit = true) : ¬ pySpace c := by
  intro hs
  rw [pySpace] at hs
  simp only [Bool.or_eq_true, decide_eq_true_eq] at hs
  rcases hs with ((((rfl | rfl) | rfl) | rfl) | rfl) | rfl <;> revert h <;> decide

theorem isoDateL_no_space (d : Date) : ∀ c ∈ isoDateL d, ¬ pySpace c := by
  intro c hc
  rcases isoDateL_chars d c hc with h | h
  · exact isDigit_not_pySpace h
  · subst h; decide

/-! ## Python float values

`PyF` idealises a Python float as NaN, an infinity, or an exact rational.
Only values of this shape arise in the program; rounding is not modelled
because no claim depends on it. -/

inductive PyF where
  | nan
  | inf
  | ninf
  | num (q : ℚ)
deriving DecidableEq, Repr

/-! ## Python/pandas cell values

`Val` covers the cell values this contract can encounter: `None`, strings,
floats, ints, `datetime.date` objects, and the pandas missing-value
sentinels `pd.NaT` and `pd.NA`. -/

inductive Val where
  | none
  | str (s : String)
  | float (f : PyF)
  | int (n : ℤ)
  | date (d : Date)
  | nat_sentinel
  | na
deriving DecidableEq, Repr

/-- `str(n)` for a Python int. -/
def intStr (n : ℤ) : List Char :=
  if n < 0 then '-' :: natDigs n.natAbs else natDigs n.natAbs

/-- Smallest `k ≤ q.den` with `q * 10 ^ k` integral, when it exists.  For
every rational actually produced by parsing a decimal string such a `k`
exists (see `decExp_of_pow_dvd`). -/
def decExp (q : ℚ) : Option Nat :=
  (List.range (q.den + 1)).find? (fun k => (q * (10 : ℚ) ^ k).den = 1)

/-- `repr`/`str` of a finite Python float, modelled as the exact decimal
expansion `intpart.fracpart` (Python floats are dyadic, so an exact finite
expansion exists; Python prints the shortest round-tripping form, this
model prints the full expansion — no claim observes the difference).  For
rationals that are not decimal fractions (unreachable from Python floats)
an arbitrary string is returned. -/
def fracPart (m k : Nat) : List Char :=
  if k = 0 then ['0'] else padLeft k (natDigs (m % 10 ^ k))

def ratRepr (q : ℚ) : List Char :=
  match decExp |q| with
  | Option.none => ['0', '.', '0']
  | Option.some k =>
    let m : Nat := (|q| * (10 : ℚ) ^ k).num.toNat
    (if q < 0 then ['-'] else []) ++ natDigs (m / 10 ^ k) ++ '.' :: fracPart m k

/-- `str(f)` for a Python float. -/
def floatStr (f : PyF) : List Char :=
  match f with
  | PyF.nan => ['n', 'a', 'n']
  | PyF.inf => ['i', 'n', 'f']
  | PyF.ninf => ['-', 'i', 'n', 'f']
  | PyF.num q => ratRepr q

/-- Python `str(x)` on a cell value.  `str(None) = "None"`, `str(pd.NaT) =
"NaT"`, `str(pd.NA) = "<NA>"`, dates print in ISO form. -/
def pyStr (v : Val) : String :=
  match v with
  | Val.none => "None"
  | Val.str s => s
  | Val.float f => String.mk (floatStr f)
  | Val.int n => String.mk (intStr n)
  | Val.date d => isoDate d
  | Val.nat_sentinel => "NaT"
  | Val.na => "<NA>"

/-- `pd.isna` on a cell value: `None`, float NaN, `NaT` and `NA` are
missing; strings, ints, dates and non-NaN floats are not. -/
def isna (v : Val) : Bool :=
  match v with
  | Val.none => true
  | Val.float PyF.nan => true
  | Val.nat_sentinel => true
  | Val.na => true
  | _ => false

/-! ## ISO date parsing (model of `pd.to_datetime(..., errors="coerce")`
on the strings this program produces and the spec exercises) -/

/-- Split a character list on `-` separators. -/
def splitDash : List Char → List (List Char)
  | [] => [[]]
  | c :: t =>
    match splitDash t with
    | [] => [[c]]
    | g :: gs => if c = '-' then [] :: g :: gs else (c :: g) :: gs

theorem splitDash_ne_nil (l : List Char) : splitDash l ≠ [] := by
  cases l with
  | nil => simp [splitDash]
  | cons c t =>
    rw [splitDash]
    cases splitDash t with
    | nil => simp
    | cons g gs =>
      by_cases h : c = '-' <;> simp [h]

theorem splitDash_no_dash (l : List Char) (h : '-' ∉ l) : splitDash l = [l] := by
  induction l with
  | nil => rfl
  | cons c t ih =>
    rw [splitDash]
    have hc : c ≠ '-' := fun hc => h (hc ▸ List.mem_cons_self c t)
    have ht : '-' ∉ t := fun ht => h (List.mem_cons_of_mem c ht)
    rw [ih ht]
    simp [hc]

theorem splitDash_append (a rest : List Char) (h : '-' ∉ a) :
    splitDash (a ++ '-' :: rest) = a :: splitDash rest := by
  induction a with
  | nil =>
    rw [List.nil_append, splitDash]
    cases hr : splitDash rest with
    | nil => exact absurd hr (splitDash_ne_nil rest)
    | cons g gs => simp
  | cons c t ih =>
    have hc : c ≠ '-' := fun hc => h (hc ▸ List.mem_cons_self c t)
    have ht : '-' ∉ t := fun ht => h (List.mem_cons_of_mem c ht)
    rw [List.cons_append, splitDash, ih ht]
    cases hr : splitDash rest with
    | nil => exact absurd hr (splitDash_ne_nil rest)
    | cons g gs => simp [hc]

/-- Parse an ISO `YYYY-MM-DD` calendar date (the strict core of
`pd.to_datetime`'s lenient parser: the only date format this program ever
feeds back to itself, via `date.isoformat`).  Rejects malformed components,
impossible calendar dates, and dates outside pandas' `Timestamp` range —
pandas raises `OutOfBoundsDatetime`/`ValueError` on those, which
`errors="coerce"` turns into `NaT`. -/
def mkDateChecked (y m dd : Nat) : Option Date :=
  if dateOk ⟨y, m, dd⟩ then Option.some ⟨y, m, dd⟩ else Option.none

def parseISO (l : List Char) : Option Date :=
  match splitDash l with
  | [ys, ms, ds] =>
    if ys ≠ [] ∧ ys.length ≤ 4 ∧ ms ≠ [] ∧ ms.length ≤ 2 ∧ ds ≠ [] ∧ ds.length ≤ 2
        ∧ (∀ c ∈ ys, c.isDigit = true) ∧ (∀ c ∈ ms, c.isDigit = true)
        ∧ (∀ c ∈ ds, c.isDigit = true) then
      mkDateChecked (digsVal ys) (digsVal ms) (digsVal ds)
    else Option.none
  | _ => Option.none

/-! ## Python `float(...)` string parsing -/

/-- Optional leading `+`/`-` sign of a numeric literal: the sign as `±1`
and the remaining characters. -/
def headSign (l : List Char) : ℤ × List Char :=
  match l with
  | [] => (1, [])
  | c :: t => if c = '+' then (1, t) else if c = '-' then (-1, t) else (1, c :: t)

/-- Exponent suffix of a float literal (after the `e`/`E`). -/
def parseExp (base : ℚ) (l : List Char) : Option ℚ :=
  let es := (headSign l).1
  let l1 := (headSign l).2
  let ds := l1.takeWhile Char.isDigit
  if ds = [] ∨ l1.dropWhile Char.isDigit ≠ [] then Option.none
  else Option.some (if es < 0 then base / 10 ^ digsVal ds else base * 10 ^ digsVal ds)

/-- Mantissa/exponent assembly: `ds1` are the integer-part digits, `ds2`
the fraction digits, `r3` what follows them. -/
def parseTail (ds1 ds2 r3 : List Char) : Option ℚ :=
  if ds1 = [] ∧ ds2 = [] then Option.none
  else
    let base : ℚ := ((digsVal ds1 : ℚ) * 10 ^ ds2.length + (digsVal ds2 : ℚ)) / 10 ^ ds2.length
    match r3 with
    | [] => Option.some base
    | 'e' :: r4 => parseExp base r4
    | 'E' :: r4 => parseExp base r4
    | _ => Option.none

/-- After the integer digits: an optional `.fraction`, then the tail. -/
def parseAfterInt (ds1 r1 : List Char) : Option ℚ :=
  match r1 with
  | [] => parseTail ds1 [] []
  | c :: r2 =>
    if c = '.' then parseTail ds1 (r2.takeWhile Char.isDigit) (r2.dropWhile Char.isDigit)
    else parseTail ds1 [] (c :: r2)

/-- Unsigned numeric literal accepted by Python `float(...)`:
`digits[.digits][(e|E)[+|-]digits]`, at least one mantissa digit. -/
def parseNum (l : List Char) : Option ℚ :=
  parseAfterInt (l.takeWhile Char.isDigit) (l.dropWhile Char.isDigit)

/-- Python `float(str)`: strips whitespace, takes an optional sign, then a
numeric literal or one of the special spellings `nan` / `inf` / `infinity`
(case-insensitive).  Returns `none` where Python raises `ValueError`.
(Underscored literals like `1_000.0` are not modelled.) -/
def parseFloat (s : String) : Option PyF :=
  let l := stripL s.data
  let sg : ℤ := (headSign l).1
  let l1 : List Char := (headSign l).2
  match parseNum l1 with
  | Option.some q => Option.some (PyF.num (sg * q))
  | Option.none =>
    let low := l1.map Char.toLower
    if low = ['n', 'a', 'n'] then Option.some PyF.nan
    else if low = ['i', 'n', 'f'] ∨ low = ['i', 'n', 'f', 'i', 'n', 'i', 't', 'y'] then
      Option.some (if sg < 0 then PyF.ninf else PyF.inf)
    else Option.none

/-! ## Supporting lemmas for the float repr round trip -/

theorem isDigit_ne_special {c : Char} (h : c.isDigit = true) :
    c ≠ '+' ∧ c ≠ '-' ∧ c ≠ '.' ∧ c ≠ '$' ∧ c ≠ ',' := by
  refine ⟨?_, ?_, ?_, ?_, ?_⟩ <;> intro hc <;> subst hc <;> revert h <;> decide

theorem takeWhile_all (p : Char → Bool) (l : List Char) (h : ∀ c ∈ l, p c = true) :
    l.takeWhile p = l := by
  induction l with
  | nil => rfl
  | cons c t ih =>
    rw [List.takeWhile_cons, h c (List.mem_cons_self c t)]
    rw [ih (fun x hx => h x (List.mem_cons_of_mem c hx))]
    simp

theorem dropWhile_all (p : Char → Bool) (l : List Char) (h : ∀ c ∈ l, p c = true) :
    l.dropWhile p = [] := by
  rw [List.dropWhile_eq_nil_iff]
  intro x hx
  rw [h x hx]

theorem takeWhile_append_stop (p : Char → Bool) (a : List Char) (x : Char) (b : List Char)
    (ha : ∀ c ∈ a, p c = true) (hx : p x = false) :
    (a ++ x :: b).takeWhile p = a := by
  induction a with
  | nil => simp [List.takeWhile_cons, hx]
  | cons c t ih =>
    rw [List.cons_append, List.takeWhile_cons, ha c (List.mem_cons_self c t)]
    rw [ih (fun y hy => ha y (List.mem_cons_of_mem c hy))]
    simp

theorem dropWhile_append_stop (p : Char → Bool) (a : List Char) (x : Char) (b : List Char)
    (ha : ∀ c ∈ a, p c = true) (hx : p x = false) :
    (a ++ x :: b).dropWhile p = x :: b := by
  induction a with
  | nil => simp [List.dropWhile_cons, hx]
  | cons c t ih =>
    rw [List.cons_append, List.dropWhile_cons, ha c (List.mem_cons_self c t)]
    simp only [if_true]
    exact ih (fun y hy => ha y (List.mem_cons_of_mem c hy))

/-- A divisor of a power of 10 divides a power of 10 with small exponent. -/
theorem exists_small_pow_dvd (K d : Nat) (hd : 0 < d) (hdvd : d ∣ 10 ^ K) :
    ∃ k, k ≤ d ∧ d ∣ 10 ^ k := by
  induction K generalizing d with
  | zero =>
    refine ⟨0, ?_, ?_⟩
    · have := Nat.le_of_dvd (by norm_num) hdvd
      omega
    · simpa using hdvd
  | succ K ih =>
    by_cases hg : Nat.gcd d 10 = 1
    · have hco : Nat.Coprime d (10 ^ (K + 1)) := Nat.Coprime.pow_right _ hg
      have : d = 1 := hco.eq_one_of_dvd hdvd
      exact ⟨0, by omega, by simp [this]⟩
    · have hgpos : 0 < Nat.gcd d 10 := Nat.gcd_pos_of_pos_right _ (by norm_num)
      have hg2 : 2 ≤ Nat.gcd d 10 := by
        rcases Nat.lt_or_ge (Nat.gcd d 10) 2 with h | h
        · interval_cases hG : Nat.gcd d 10 <;> omega
        · exact h
      set g := Nat.gcd d 10 with hgdef
      have hgd : g ∣ d := Nat.gcd_dvd_left _ _
      have hg10 : g ∣ 10 := Nat.gcd_dvd_right _ _
      have hco : Nat.Coprime (d / g) (10 / g) := Nat.coprime_div_gcd_div_gcd hgpos
      have hstep : d / g ∣ (10 / g) * 10 ^ K := by
        have h1 : d ∣ 10 * 10 ^ K := by
          rw [← pow_succ']
          exact hdvd
        have h2 : g * (d / g) ∣ g * ((10 / g) * 10 ^ K) := by
          rw [Nat.mul_div_cancel' hgd, ← Nat.mul_assoc, Nat.mul_div_cancel' hg10]
          exact h1
        exact (Nat.mul_dvd_mul_iff_left hgpos).mp h2
      have hdq : d / g ∣ 10 ^ K := (Nat.Coprime.dvd_of_dvd_mul_left hco hstep)
      have hdgpos : 0 < d / g := Nat.div_pos (Nat.le_of_dvd hd hgd) hgpos
      obtain ⟨k, hk_le, hk_dvd⟩ := ih (d / g) hdgpos hdq
      refine ⟨k + 1, ?_, ?_⟩
      · have : d = g * (d / g) := (Nat.mul_div_cancel' hgd).symm
        have h2d : 2 * (d / g) ≤ d := by
          calc 2 * (d / g) ≤ g * (d / g) := Nat.mul_le_mul_right _ hg2
          _ = d := Nat.mul_div_cancel' hgd
        omega
      · have : d = g * (d / g) := (Nat.mul_div_cancel' hgd).symm
        rw [this, pow_succ']
        exact Nat.mul_dvd_mul hg10 hk_dvd

theorem rat_mul_den (q : ℚ) : q * (q.den : ℚ) = (q.num : ℚ) := by
  have hd : (q.den : ℚ) ≠ 0 := by
    exact_mod_cast q.den_nz
  calc q * (q.den : ℚ) = ((q.num : ℚ) / (q.den : ℚ)) * (q.den : ℚ) := by
        rw [Rat.num_div_den]
  _ = (q.num : ℚ) := div_mul_cancel₀ _ hd

theorem den_mul_pow_eq_one (q : ℚ) (k : Nat) (h : q.den ∣ 10 ^ k) :
    (q * (10 : ℚ) ^ k).den = 1 := by
  obtain ⟨t, ht⟩ := h
  have hcast : ((10 : ℚ) ^ k) = ((q.den : ℚ)) * ((t : ℕ) : ℚ) := by
    have h2 := congrArg (fun n : ℕ => (n : ℚ)) ht
    push_cast at h2
    exact h2
  have hq : q * (10 : ℚ) ^ k = ((q.num * (t : ℤ) : ℤ) : ℚ) := by
    rw [hcast, ← mul_assoc, rat_mul_den]
    push_cast
    ring
  rw [hq, Rat.den_intCast]

theorem decExp_some_spec (q : ℚ) (k : Nat) (h : decExp q = Option.some k) :
    (q * (10 : ℚ) ^ k).den = 1 := by
  have := List.find?_some h
  exact of_decide_eq_true this

theorem decExp_isSome (q : ℚ) (h : ∃ K, q.den ∣ 10 ^ K) :
    ∃ k, decExp q = Option.some k := by
  obtain ⟨K, hK⟩ := h
  obtain ⟨k, hk_le, hk_dvd⟩ := exists_small_pow_dvd K q.den q.pos hK
  cases hfind : decExp q with
  | some k0 => exact ⟨k0, rfl⟩
  | none =>
    exfalso
    rw [decExp, List.find?_eq_none] at hfind
    have hmem : k ∈ List.range (q.den + 1) := List.mem_range.mpr (by omega)
    exact hfind k hmem (decide_eq_true (den_mul_pow_eq_one q k hk_dvd))

theorem parseNum_decimal_string (ip fp : List Char) (hip : ip ≠ [])
    (hipd : ∀ c ∈ ip, c.isDigit = true) (hfpd : ∀ c ∈ fp, c.isDigit = true) :
    parseNum (ip ++ '.' :: fp)
      = Option.some (((digsVal ip : ℚ) * 10 ^ fp.length + (digsVal fp : ℚ)) / 10 ^ fp.length) := by
  have hdot : ('.').isDigit = false := by decide
  rw [parseNum, takeWhile_append_stop _ _ _ _ hipd hdot, dropWhile_append_stop _ _ _ _ hipd hdot]
  show parseTail ip (fp.takeWhile Char.isDigit) (fp.dropWhile Char.isDigit) = _
  rw [takeWhile_all _ _ hfpd, dropWhile_all _ _ hfpd]
  rw [parseTail, if_neg (by simp [hip])]

theorem abs_den (q : ℚ) : |q|.den = q.den := by
  rcases abs_choice q with h | h
  · rw [h]
  · rw [h, Rat.den_neg_eq_den]

theorem base_fracPart (m k : Nat) :
    ((digsVal (natDigs (m / 10 ^ k)) : ℚ) * 10 ^ (fracPart m k).length
        + (digsVal (fracPart m k) : ℚ)) / 10 ^ (fracPart m k).length
      = (m : ℚ) / 10 ^ k := by
  by_cases hk0 : k = 0
  · subst hk0
    rw [fracPart, if_pos rfl]
    have h0 : digsVal ['0'] = 0 := by decide
    rw [digsVal_natDigs, h0]
    norm_num
  · rw [fracPart, if_neg hk0]
    have hmod : m % 10 ^ k < 10 ^ k := Nat.mod_lt _ (Nat.pos_pow_of_pos k (by norm_num))
    have hlen : (padLeft k (natDigs (m % 10 ^ k))).length = k :=
      padLeft_length _ _ (natDigs_length_le _ _ hmod (by omega))
    rw [hlen, digsVal_padLeft, digsVal_natDigs, digsVal_natDigs]
    have hN : m / 10 ^ k * 10 ^ k + m % 10 ^ k = m := by
      rw [Nat.mul_comm]
      exact Nat.div_add_mod m (10 ^ k)
    have hsplit : ((m / 10 ^ k : ℕ) : ℚ) * 10 ^ k + ((m % 10 ^ k : ℕ) : ℚ) = (m : ℚ) := by
      exact_mod_cast congrArg (fun n : ℕ => (n : ℚ)) hN
    rw [hsplit]

theorem fracPart_digits (m k : Nat) : ∀ c ∈ fracPart m k, c.isDigit = true := by
  rw [fracPart]
  by_cases hk0 : k = 0
  · rw [if_pos hk0]
    intro c hc
    simp only [List.mem_singleton] at hc
    subst hc
    decide
  · rw [if_neg hk0]
    exact padLeft_digits _ _ (natDigs_digits _)

theorem ratRepr_chars (q : ℚ) : ∀ c ∈ ratRepr q, c.isDigit = true ∨ c = '-' ∨ c = '.' := by
  intro c hc
  rw [ratRepr] at hc
  cases hdec : decExp |q| with
  | none =>
    rw [hdec] at hc
    simp only [List.mem_cons, List.not_mem_nil, or_false] at hc
    rcases hc with rfl | rfl | rfl
    · exact Or.inl (by decide)
    · exact Or.inr (Or.inr rfl)
    · exact Or.inl (by decide)
  | some k =>
    rw [hdec] at hc
    simp only [List.mem_append, List.mem_cons] at hc
    rcases hc with (hc | hc) | hc | hc
    · rcases Decidable.em (q < 0) with hneg | hneg
      · rw [if_pos hneg] at hc
        simp only [List.mem_singleton] at hc
        exact Or.inr (Or.inl hc)
      · rw [if_neg hneg] at hc
        simp at hc
    · exact Or.inl (natDigs_digits _ c hc)
    · exact Or.inr (Or.inr hc)
    · exact Or.inl (fracPart_digits _ _ c hc)

theorem ratRepr_no_space (q : ℚ) : ∀ c ∈ ratRepr q, ¬ pySpace c := by
  intro c hc
  rcases ratRepr_chars q c hc with h | h | h
  · exact isDigit_not_pySpace h
  · subst h; decide
  · subst h; decide

/-- Round trip: Python `float(str(x))` recovers a finite float `x` exactly.
Holds for every rational whose denominator divides a power of 10 — i.e.
every value `parseFloat` can produce. -/
theorem parseFloat_ratRepr (q : ℚ) (hq : ∃ K, q.den ∣ 10 ^ K) :
    parseFloat (String.mk (ratRepr q)) = Option.some (PyF.num q) := by
  obtain ⟨k, hk⟩ := decExp_isSome |q| (by rw [abs_den]; exact hq)
  have hspec := decExp_some_spec _ _ hk
  have hM : (((|q| * (10 : ℚ) ^ k).num : ℤ) : ℚ) = |q| * (10 : ℚ) ^ k :=
    (Rat.den_eq_one_iff _).mp hspec
  have hMnn : 0 ≤ (|q| * (10 : ℚ) ^ k).num := by
    rw [Rat.num_nonneg]
    positivity
  set m : Nat := (|q| * (10 : ℚ) ^ k).num.toNat with hmdef
  have hmZ : ((m : ℕ) : ℤ) = (|q| * (10 : ℚ) ^ k).num := by
    rw [hmdef]
    exact Int.toNat_of_nonneg hMnn
  have hmQ : ((m : ℕ) : ℚ) = |q| * (10 : ℚ) ^ k := by
    calc ((m : ℕ) : ℚ) = (((m : ℕ) : ℤ) : ℚ) := by push_cast; ring
    _ = (((|q| * (10 : ℚ) ^ k).num : ℤ) : ℚ) := by rw [hmZ]
    _ = |q| * (10 : ℚ) ^ k := hM
  have hval : ((m : ℕ) : ℚ) / 10 ^ k = |q| := by
    rw [hmQ]
    have hpow : ((10 : ℚ) ^ k) ≠ 0 := by positivity
    field_simp
  have hrepr : ratRepr q
      = (if q < 0 then ['-'] else []) ++ natDigs (m / 10 ^ k) ++ '.' :: fracPart m k := by
    rw [ratRepr, hk]
  have hnum : parseNum (natDigs (m / 10 ^ k) ++ '.' :: fracPart m k) = Option.some |q| := by
    rw [parseNum_decimal_string _ _ (natDigs_ne_nil _) (natDigs_digits _) (fracPart_digits m k)]
    rw [base_fracPart, hval]
  have hstrip : stripL (ratRepr q) = ratRepr q := stripL_eq_self _ (ratRepr_no_space q)
  show parseFloat (String.mk (ratRepr q)) = Option.some (PyF.num q)
  rw [parseFloat]
  show (match parseNum (headSign (stripL (ratRepr q))).2 with
    | Option.some q0 => Option.some (PyF.num ((headSign (stripL (ratRepr q))).1 * q0))
    | Option.none =>
      let low := ((headSign (stripL (ratRepr q))).2).map Char.toLower
      if low = ['n', 'a', 'n'] then Option.some PyF.nan
      else if low = ['i', 'n', 'f'] ∨ low = ['i', 'n', 'f', 'i', 'n', 'i', 't', 'y'] then
        Option.some (if (headSign (stripL (ratRepr q))).1 < 0 then PyF.ninf else PyF.inf)
      else Option.none) = Option.some (PyF.num q)
  rw [hstrip, hrepr]
  rcases Decidable.em (q < 0) with hneg | hneg
  · rw [if_pos hneg]
    have hsgn : headSign (('-' :: ([] : List Char))
          ++ natDigs (m / 10 ^ k) ++ '.' :: fracPart m k)
        = (-1, natDigs (m / 10 ^ k) ++ '.' :: fracPart m k) := by
      show headSign ('-' :: (natDigs (m / 10 ^ k) ++ '.' :: fracPart m k)) = _
      rw [headSign]
      rw [if_neg (by decide), if_pos rfl]
    rw [hsgn]
    simp only [hnum]
    have : (-1 : ℤ) * |q| = q := by
      rw [abs_of_neg hneg]
      push_cast
      ring
    rw [this]
  · rw [if_neg hneg]
    obtain ⟨c, t, hct⟩ := List.exists_cons_of_ne_nil (natDigs_ne_nil (m / 10 ^ k))
    have hcd : c.isDigit = true := natDigs_digits _ c (by rw [hct]; exact List.mem_cons_self c t)
    obtain ⟨hc1, hc2, -⟩ := isDigit_ne_special hcd
    have hsgn : headSign (([] : List Char) ++ natDigs (m / 10 ^ k) ++ '.' :: fracPart m k)
        = (1, natDigs (m / 10 ^ k) ++ '.' :: fracPart m k) := by
      rw [List.nil_append, hct, List.cons_append, headSign, if_neg hc1, if_neg hc2]
    rw [hsgn]
    simp only [hnum]
    have : (1 : ℤ) * |q| = q := by
      rw [abs_of_nonneg (not_lt.mp hneg)]
      push_cast
      ring
    rw [this]

theorem parseExp_cases (base : ℚ) (l : List Char) (v : ℚ)
    (h : parseExp base l = Option.some v) :
    ∃ E : Nat, v = base / 10 ^ E ∨ v = base * 10 ^ E := by
  rw [parseExp] at h
  split at h
  · exact absurd h (by simp)
  · refine ⟨digsVal ((headSign l).2.takeWhile Char.isDigit), ?_⟩
    have hv := Option.some.inj h
    split at hv
    · exact Or.inl hv.symm
    · exact Or.inr hv.symm

theorem parseTail_decimal (ds1 ds2 r3 : List Char) (v : ℚ)
    (h : parseTail ds1 ds2 r3 = Option.some v) :
    ∃ (N K : Nat), v = (N : ℚ) / 10 ^ K := by
  rw [parseTail] at h
  split at h
  · exact absurd h (by simp)
  · have hbase : ((digsVal ds1 : ℚ) * 10 ^ ds2.length + (digsVal ds2 : ℚ)) / 10 ^ ds2.length
        = ((digsVal ds1 * 10 ^ ds2.length + digsVal ds2 : ℕ) : ℚ) / 10 ^ ds2.length := by
      push_cast
      ring
    split at h
    · refine ⟨digsVal ds1 * 10 ^ ds2.length + digsVal ds2, ds2.length, ?_⟩
      rw [← hbase]
      exact (Option.some.inj h).symm
    · obtain ⟨E, hE | hE⟩ := parseExp_cases _ _ _ h
      · refine ⟨digsVal ds1 * 10 ^ ds2.length + digsVal ds2, ds2.length + E, ?_⟩
        rw [hE, hbase, div_div, ← pow_add]
      · refine ⟨(digsVal ds1 * 10 ^ ds2.length + digsVal ds2) * 10 ^ E, ds2.length, ?_⟩
        rw [hE, hbase]
        push_cast
        ring
    · obtain ⟨E, hE | hE⟩ := parseExp_cases _ _ _ h
      · refine ⟨digsVal ds1 * 10 ^ ds2.length + digsVal ds2, ds2.length + E, ?_⟩
        rw [hE, hbase, div_div, ← pow_add]
      · refine ⟨(digsVal ds1 * 10 ^ ds2.length + digsVal ds2) * 10 ^ E, ds2.length, ?_⟩
        rw [hE, hbase]
        push_cast
        ring
    · exact absurd h (by simp)

theorem parseAfterInt_decimal (ds1 r1 : List Char) (v : ℚ)
    (h : parseAfterInt ds1 r1 = Option.some v) :
    ∃ (N K : Nat), v = (N : ℚ) / 10 ^ K := by
  cases r1 with
  | nil =>
    rw [parseAfterInt] at h
    exact parseTail_decimal _ _ _ _ h
  | cons c r2 =>
    rw [parseAfterInt] at h
    by_cases hc : c = '.'
    · rw [if_pos hc] at h
      exact parseTail_decimal _ _ _ _ h
    · rw [if_neg hc] at h
      exact parseTail_decimal _ _ _ _ h

theorem parseNum_decimal (l : List Char) (v : ℚ) (h : parseNum l = Option.some v) :
    ∃ (N K : Nat), v = (N : ℚ) / 10 ^ K := by
  rw [parseNum] at h
  exact parseAfterInt_decimal _ _ _ h

theorem headSign_fst (l : List Char) : (headSign l).1 = 1 ∨ (headSign l).1 = -1 := by
  cases l with
  | nil => exact Or.inl rfl
  | cons c t =>
    rw [headSign]
    split_ifs <;> simp

/-- Every finite value `parseFloat` can return is a decimal fraction. -/
theorem parseFloat_num_decimal (s : String) (q : ℚ)
    (h : parseFloat s = Option.some (PyF.num q)) : ∃ K, q.den ∣ 10 ^ K := by
  rw [parseFloat] at h
  rcases hnum : parseNum (headSign (stripL s.data)).2 with _ | v
  · rw [hnum] at h
    simp only [] at h
    split_ifs at h <;> simp at h
  · rw [hnum] at h
    simp only [Option.some.injEq] at h
    have hq : q = ((headSign (stripL s.data)).1 : ℚ) * v := by
      injection h with h2
      exact h2.symm
    obtain ⟨N, K, hNK⟩ := parseNum_decimal _ _ hnum
    refine ⟨K, ?_⟩
    have hqform : q = ((((headSign (stripL s.data)).1 * N : ℤ) : ℚ)) / (((10 ^ K : ℤ)) : ℚ) := by
      rw [hq, hNK]
      push_cast
      ring
    have hdvd : ((q.den : ℤ)) ∣ (10 ^ K : ℤ) := by
      rw [hqform, ← Rat.divInt_eq_div]
      exact Rat.den_dvd _ _
    have : ((q.den : ℤ)) ∣ (((10 ^ K : ℕ) : ℤ)) := by
      push_cast
      exact hdvd
    exact_mod_cast this

/-! ## `pd.to_datetime(..., errors="coerce").date()` -/

/-- Days-to-civil-date conversion (Hinnant's algorithm), used to model
`pd.to_datetime` on numeric input (nanoseconds since the Unix epoch).  No
claim depends on the values this produces, only on totality. -/
def civilFromDays (z0 : ℤ) : Date :=
  let z := z0 + 719468
  let era : ℤ := (if 0 ≤ z then z else z - 146096) / 146097
  let doe : ℤ := z - era * 146097
  let yoe : ℤ := (doe - doe / 1460 + doe / 36524 - doe / 146096) / 365
  let y : ℤ := yoe + era * 400
  let doy : ℤ := doe - (365 * yoe + yoe / 4 - yoe / 100)
  let mp : ℤ := (5 * doy + 2) / 153
  let dd : ℤ := doy - (153 * mp + 2) / 5 + 1
  let mm : ℤ := mp + (if mp < 10 then 3 else (-9))
  ⟨(y + (if mm ≤ 2 then 1 else 0)).toNat, mm.toNat, dd.toNat⟩

/-- `pd.to_datetime(x, errors="coerce").date()` per cell type, `none`
meaning `NaT`.  Strings go through the ISO parser; `datetime.date` objects
round-trip when in `Timestamp` range (`OutOfBoundsDatetime` is coerced to
`NaT`); ints and floats are nanoseconds since the epoch; everything else
(`None`, `NaN`, `NaT`, `NA`, infinities) coerces to `NaT`.  `to_datetime`
never returns an out-of-range timestamp; the `dateOk` check on the numeric
path makes that invariant explicit. -/
def toDatetimeCoerce (v : Val) : Option Date :=
  match v with
  | Val.str s => parseISO (stripL s.data)
  | Val.date d => if dateOk d then Option.some d else Option.none
  | Val.int n =>
    let d := civilFromDays (((n : ℚ) / 86400000000000 : ℚ).floor)
    if dateOk d then Option.some d else Option.none
  | Val.float (PyF.num q) =>
    let d := civilFromDays ((q / 86400000000000 : ℚ).floor)
    if dateOk d then Option.some d else Option.none
  | _ => Option.none

/-! ## The helpers of `pages/table_view.py` -/

/-- `parse_date(x)`:
```
if x is None or str(x).strip() in ("", "None", "NaT"): return pd.NaT
try:
    if pd.isna(x): return pd.NaT
except Exception: pass
return pd.to_datetime(x, errors="coerce").date()
```
(`pd.isna` never raises on the scalar cell values modelled here; a failed
coerce yields `pd.NaT`, whose `.date()` is again `pd.NaT`.) -/
def parse_date (x : Val) : Val :=
  if x = Val.none ∨ pyStrip (pyStr x) = "" ∨ pyStrip (pyStr x) = "None"
      ∨ pyStrip (pyStr x) = "NaT" then Val.nat_sentinel
  else if isna x then Val.nat_sentinel
  else match toDatetimeCoerce x with
    | Option.some d => Val.date d
    | Option.none => Val.nat_sentinel

/-- `str(x).replace("$", "").replace(",", "")`. -/
def stripDollarComma (s : String) : String :=
  String.mk (s.data.filter (fun c => !(c = '$' || c = ',')))

/-- `parse_price(x)`:
```
if x is None or str(x).strip() == "": return pd.NA
s = str(x).replace("$", "").replace(",", "")
try: return float(s)
except Exception: return pd.NA
``` -/
def parse_price (x : Val) : Val :=
  if x = Val.none ∨ pyStrip (pyStr x) = "" then Val.na
  else match parseFloat (stripDollarComma (pyStr x)) with
    | Option.some f => Val.float f
    | Option.none => Val.na

/-! ## Tables and `normalize_df` -/

/-- One row of the in-memory table, restricted to the 8 canonical columns
(`normalize_df` starts with `df[REQUIRED_COLS]`, so other columns never
survive; inputs are required to contain at least these). -/
structure Row where
  wo : Val
  quote : Val
  po_number : Val
  status : Val
  customer_name : Val
  model_description : Val
  scheduled_date : Val
  price : Val
deriving DecidableEq, Repr

/-- `fillna("").astype(str)` on one cell: missing values become `""`, the
rest are stringified. -/
def fillStr (v : Val) : Val :=
  Val.str (if isna v then "" else pyStr v)

/-- `normalize_df` on one row: `WO` is stringified and stripped, the
scheduled date goes through `parse_date`, the price through `parse_price`,
and the five remaining text columns through `fillna("").astype(str)`. -/
def normalizeRow (r : Row) : Row :=
  { wo := Val.str (pyStrip (pyStr r.wo))
    quote := fillStr r.quote
    po_number := fillStr r.po_number
    status := fillStr r.status
    customer_name := fillStr r.customer_name
    model_description := fillStr r.model_description
    scheduled_date := parse_date r.scheduled_date
    price := parse_price r.price }

/-- `normalize_df` (column operations are row-independent). -/
def normalize_df (df : List Row) : List Row :=
  df.map normalizeRow

/-- `.str.strip().ne("")` on one cell.  pandas `.str` accessors yield `NaN`
on non-string cells and `NaN != ""` holds, hence `true` in the default
case; after `normalize_df` the three masked cells are always strings. -/
def strStripNe (v : Val) : Bool :=
  match v with
  | Val.str s => !(pyStrip s == "")
  | _ => true

/-- The Apply-handler row mask:
`df["WO"].str.strip().ne("") | df["Customer Name"].str.strip().ne("") |
df["Model Description"].str.strip().ne("")`. -/
def maskKeep (r : Row) : Bool :=
  strStripNe r.wo || strStripNe r.customer_name || strStripNe r.model_description

/-- The spec's `normalize`: `normalize_df` followed by dropping the rows
where WO, Customer Name and Model Description are all blank (the mask
applied immediately after `normalize_df` in the Apply handler). -/
def normalizeTable (df : List Row) : List Row :=
  (normalize_df df).filter maskKeep

/-! ## The remote store (`order_book` table) and `save_data`/`load_data` -/

/-- One stored row: the snake-case columns of the `order_book` table.
Every column is nullable; `id` is the surrogate key the store assigns. -/
structure StoreRow where
  wo : Option String
  quote : Option String
  po_number : Option String
  status : Option String
  customer_name : Option String
  model_description : Option String
  scheduled_date : Option String
  price : Option PyF
  uploaded_name : Option String
  id : Option Nat
deriving DecidableEq, Repr

/-- The filter of `.delete().neq("wo", "___never___")`: PostgREST `neq`
translates to SQL `wo <> '___never___'`, which under SQL three-valued
logic matches neither a `NULL` `wo` nor a `wo` equal to the literal. -/
def neqMatches (r : StoreRow) : Bool :=
  match r.wo with
  | Option.some s => !(s == "___never___")
  | Option.none => false

/-- The delete step of `save_data`: remove every row the filter matches. -/
def deleteStep (store : List StoreRow) : List StoreRow :=
  store.filter (fun r => !(neqMatches r))

/-- `d.isoformat() if not pd.isna(d) else None`: the outer `Option` is
success (`none` = `AttributeError`: non-missing non-date values have no
`.isoformat`), the inner `Option` the nullable column. -/
def serializeSched (v : Val) : Option (Option String) :=
  if isna v then Option.some Option.none
  else match v with
    | Val.date d => Option.some (Option.some (isoDate d))
    | _ => Option.none

/-- `float(price) if price is not None and not pd.isna(price) else None`:
`float(...)` accepts floats, ints and numeric strings and raises otherwise
(outer `none`). -/
def serializePrice (v : Val) : Option (Option PyF) :=
  if v = Val.none ∨ isna v then Option.some Option.none
  else match v with
    | Val.float f => Option.some (Option.some f)
    | Val.int n => Option.some (Option.some (PyF.num (n : ℚ)))
    | Val.str s => (parseFloat s).map Option.some
    | _ => Option.none

/-- One row of the insert payload built by `save_data` (`none` = one of
the conversions raised).  `uploaded_name` gets `last_uploaded_name or ""`;
the store fills in `id`. -/
def rowToStore (label : Option String) (r : Row) : Option StoreRow :=
  match serializeSched r.scheduled_date, serializePrice r.price with
  | Option.some sd, Option.some pr =>
    Option.some
      { wo := Option.some (pyStrip (pyStr r.wo))
        quote := Option.some (pyStr r.quote)
        po_number := Option.some (pyStr r.po_number)
        status := Option.some (pyStr r.status)
        customer_name := Option.some (pyStr r.customer_name)
        model_description := Option.some (pyStr r.model_description)
        scheduled_date := sd
        price := pr
        uploaded_name := Option.some (label.getD "")
        id := Option.none }
  | _, _ => Option.none

/-- The `rows` list of `save_data` (`none` = an exception while building
it, before any insert). -/
def mapRows (label : Option String) (df : List Row) : Option (List StoreRow) :=
  match df with
  | [] => Option.some []
  | r :: t =>
    match rowToStore label r, mapRows label t with
    | Option.some sr, Option.some st => Option.some (sr :: st)
    | _, _ => Option.none

/-- `for i in range(0, len(rows), 500): insert(rows[i : i + 500])`: the
successive insert payloads. -/
def chunks500 : List StoreRow → List (List StoreRow)
  | [] => []
  | x :: t => ((x :: t).take 500) :: chunks500 ((x :: t).drop 500)
termination_by l => l.length
decreasing_by
  simp only [List.length_drop, List.length_cons]
  omega

/-- The sequence of insert calls `save_data` issues for a non-empty table
(empty if building the row list raised). -/
def saveBatches (label : Option String) (df : List Row) : List (List StoreRow) :=
  match mapRows label df with
  | Option.some rows => chunks500 rows
  | Option.none => []

/-- `save_data(df, last_uploaded_name)` as a store transformer: delete all
matched rows; if the table is empty return right away; otherwise append
the insert batches in order. -/
def save_data (store : List StoreRow) (df : List Row) (label : Option String) :
    List StoreRow :=
  let store1 := deleteStep store
  if df = [] then store1
  else store1 ++ (saveBatches label df).flatten

/-- One loaded row: rename to canonical columns, drop `uploaded_name` and
`id`, `parse_date` over `scheduled_date`, `float(x) if x is not None else
pd.NA` over `price`, and `fillna("").astype(str)` over the five text
columns — `WO` is not in that loop and is returned as stored.

The price conversion depends on the whole column, not just the cell:
`pd.DataFrame(rows)` infers the price column's dtype, and a column mixing
`NULL` with numbers is coerced to `float64`, turning each `NULL` into NaN
before the lambda runs; `nan is not None`, so the lambda returns
`float(nan)` = NaN for those cells.  Only when the entire column is `NULL`
does it stay object-typed, so that `None` reaches the lambda and maps to
`pd.NA`.  `priceAllNull` records that column-level fact. -/
def loadRow (priceAllNull : Bool) (sr : StoreRow) : Row :=
  { wo := match sr.wo with
      | Option.some s => Val.str s
      | Option.none => Val.none
    quote := Val.str (sr.quote.getD "")
    po_number := Val.str (sr.po_number.getD "")
    status := Val.str (sr.status.getD "")
    customer_name := Val.str (sr.customer_name.getD "")
    model_description := Val.str (sr.model_description.getD "")
    scheduled_date := parse_date (match sr.scheduled_date with
      | Option.some s => Val.str s
      | Option.none => Val.none)
    price := match sr.price with
      | Option.some f => Val.float f
      | Option.none => if priceAllNull then Val.na else Val.float PyF.nan }

/-- `load_data()`: an empty store yields an empty table (with the canonical
columns) and no label; otherwise each stored row is converted — with the
price column's pandas dtype determined by whether every stored price is
`NULL` — and the label is the first row's `uploaded_name`. -/
def load_data (store : List StoreRow) : List Row × Option String :=
  match store with
  | [] => ([], Option.none)
  | r0 :: _ =>
    (store.map (loadRow (store.all (fun sr => sr.price.isNone))), r0.uploaded_name)

/-! ## Range invariants and idempotence of the parsers -/

theorem mkDateChecked_ok (y m dd : Nat) (d : Date)
    (h : mkDateChecked y m dd = Option.some d) : dateOk d = true := by
  rw [mkDateChecked] at h
  split at h
  · have hd := Option.some.inj h
    subst hd
    assumption
  · exact absurd h (by simp)

theorem parseISO_ok (l : List Char) (d : Date) (h : parseISO l = Option.some d) :
    dateOk d = true := by
  rw [parseISO] at h
  split at h
  · split at h
    · exact mkDateChecked_ok _ _ _ _ h
    · exact absurd h (by simp)
  · exact absurd h (by simp)

theorem toDatetimeCoerce_ok (v : Val) (d : Date) (h : toDatetimeCoerce v = Option.some d) :
    dateOk d = true := by
  cases v with
  | str s => exact parseISO_ok _ _ h
  | date d0 =>
    rw [toDatetimeCoerce] at h
    split at h
    · have hd := Option.some.inj h
      subst hd
      assumption
    · exact absurd h (by simp)
  | int n =>
    rw [toDatetimeCoerce] at h
    split at h
    · have hd := Option.some.inj h
      subst hd
      assumption
    · exact absurd h (by simp)
  | float f =>
    cases f with
    | num q =>
      rw [toDatetimeCoerce] at h
      split at h
      · have hd := Option.some.inj h
        subst hd
        assumption
      · exact absurd h (by simp)
    | nan => exact absurd h (by simp [toDatetimeCoerce])
    | inf => exact absurd h (by simp [toDatetimeCoerce])
    | ninf => exact absurd h (by simp [toDatetimeCoerce])
  | none => exact absurd h (by simp [toDatetimeCoerce])
  | nat_sentinel => exact absurd h (by simp [toDatetimeCoerce])
  | na => exact absurd h (by simp [toDatetimeCoerce])

theorem isoDateL_ne_nil (d : Date) : isoDateL d ≠ [] := by
  rw [isoDateL]
  simp

theorem pyStrip_isoDate (d : Date) : pyStrip (isoDate d) = isoDate d := by
  rw [isoDate, pyStrip]
  show String.mk (stripL (isoDateL d)) = String.mk (isoDateL d)
  rw [stripL_eq_self _ (isoDateL_no_space d)]

theorem isoDate_not_reserved (d : Date) :
    isoDate d ≠ "" ∧ isoDate d ≠ "None" ∧ isoDate d ≠ "NaT" := by
  refine ⟨?_, ?_, ?_⟩
  · rw [isoDate]
    intro hc
    have : isoDateL d = ([] : List Char) := by
      have := congrArg String.data hc
      exact this
    exact isoDateL_ne_nil d this
  · rw [isoDate]
    intro hc
    have hdata : isoDateL d = ('N' :: 'o' :: 'n' :: 'e' :: []) := congrArg String.data hc
    have hmem : ('N' : Char) ∈ isoDateL d := by
      rw [hdata]
      exact List.mem_cons_self _ _
    rcases isoDateL_chars d 'N' hmem with h | h <;> revert h <;> decide
  · rw [isoDate]
    intro hc
    have hdata : isoDateL d = ('N' :: 'a' :: 'T' :: []) := congrArg String.data hc
    have hmem : ('N' : Char) ∈ isoDateL d := by
      rw [hdata]
      exact List.mem_cons_self _ _
    rcases isoDateL_chars d 'N' hmem with h | h <;> revert h <;> decide

theorem parse_date_date_ok (d : Date) (hok : dateOk d = true) :
    parse_date (Val.date d) = Val.date d := by
  rw [parse_date]
  have hstr : pyStr (Val.date d) = isoDate d := rfl
  have hisna : isna (Val.date d) = false := rfl
  obtain ⟨h1, h2, h3⟩ := isoDate_not_reserved d
  rw [if_neg]
  · rw [if_neg (by rw [hisna]; simp)]
    rw [toDatetimeCoerce, if_pos hok]
  · rw [hstr, pyStrip_isoDate]
    simp only [not_or]
    exact ⟨by simp, h1, h2, h3⟩

theorem parse_date_nat_sentinel : parse_date Val.nat_sentinel = Val.nat_sentinel := by
  rfl

/-- `parse_date` returns a date or `NaT` on every input: it is total and
date-only (claim C4's shape clause). -/
theorem parse_date_shape (x : Val) :
    (∃ d, parse_date x = Val.date d ∧ dateOk d = true) ∨ parse_date x = Val.nat_sentinel := by
  rw [parse_date]
  split
  · exact Or.inr rfl
  · split
    · exact Or.inr rfl
    · cases hc : toDatetimeCoerce x with
      | none => exact Or.inr rfl
      | some d => exact Or.inl ⟨d, rfl, toDatetimeCoerce_ok _ _ hc⟩

theorem parse_date_idem (x : Val) : parse_date (parse_date x) = parse_date x := by
  rcases parse_date_shape x with ⟨d, hd, hok⟩ | hnat
  · rw [hd, parse_date_date_ok d hok]
  · rw [hnat, parse_date_nat_sentinel]

theorem parse_price_shape (x : Val) :
    parse_price x = Val.na ∨ ∃ f, parse_price x = Val.float f := by
  rw [parse_price]
  split
  · exact Or.inl rfl
  · cases parseFloat (stripDollarComma (pyStr x)) with
    | none => exact Or.inl rfl
    | some f => exact Or.inr ⟨f, rfl⟩

theorem parse_price_num_decimal (x : Val) (q : ℚ)
    (h : parse_price x = Val.float (PyF.num q)) : ∃ K, q.den ∣ 10 ^ K := by
  rw [parse_price] at h
  split at h
  · exact absurd h (by simp)
  · cases hp : parseFloat (stripDollarComma (pyStr x)) with
    | none =>
      rw [hp] at h
      exact absurd h (by simp)
    | some f =>
      rw [hp] at h
      have hf : f = PyF.num q := Val.float.inj h
      subst hf
      exact parseFloat_num_decimal _ _ hp

theorem ratRepr_ne_nil (q : ℚ) : ratRepr q ≠ [] := by
  rw [ratRepr]
  cases decExp |q| with
  | none => simp
  | some k => simp

theorem strMk_ratRepr_ne_empty (q : ℚ) : String.mk (ratRepr q) ≠ "" := by
  intro hc
  exact ratRepr_ne_nil q (congrArg String.data hc)

theorem pyStrip_ratRepr (q : ℚ) :
    pyStrip (String.mk (ratRepr q)) = String.mk (ratRepr q) := by
  rw [pyStrip]
  show String.mk (stripL (ratRepr q)) = String.mk (ratRepr q)
  rw [stripL_eq_self _ (ratRepr_no_space q)]

theorem stripDollarComma_ratRepr (q : ℚ) :
    stripDollarComma (String.mk (ratRepr q)) = String.mk (ratRepr q) := by
  rw [stripDollarComma]
  show String.mk ((ratRepr q).filter _) = String.mk (ratRepr q)
  congr 1
  rw [List.filter_eq_self]
  intro c hc
  rcases ratRepr_chars q c hc with h | h | h
  · obtain ⟨-, -, -, h4, h5⟩ := isDigit_ne_special h
    simp [h4, h5]
  · subst h; decide
  · subst h; decide

theorem parse_price_float_num (q : ℚ) (hq : ∃ K, q.den ∣ 10 ^ K) :
    parse_price (Val.float (PyF.num q)) = Val.float (PyF.num q) := by
  rw [parse_price]
  have hstr : pyStr (Val.float (PyF.num q)) = String.mk (ratRepr q) := rfl
  rw [if_neg]
  · rw [hstr, stripDollarComma_ratRepr, parseFloat_ratRepr q hq]
  · rw [hstr, pyStrip_ratRepr]
    simp only [not_or]
    exact ⟨by simp, strMk_ratRepr_ne_empty q⟩

theorem parse_price_na : parse_price Val.na = Val.na := by decide

theorem parse_price_nan : parse_price (Val.float PyF.nan) = Val.float PyF.nan := by decide

theorem parse_price_inf : parse_price (Val.float PyF.inf) = Val.float PyF.inf := by decide

theorem parse_price_ninf : parse_price (Val.float PyF.ninf) = Val.float PyF.ninf := by decide

theorem parse_price_idem (x : Val) : parse_price (parse_price x) = parse_price x := by
  rcases parse_price_shape x with hna | ⟨f, hf⟩
  · rw [hna, parse_price_na]
  · cases f with
    | nan => rw [hf, parse_price_nan]
    | inf => rw [hf, parse_price_inf]
    | ninf => rw [hf, parse_price_ninf]
    | num q =>
      rw [hf, parse_price_float_num q (parse_price_num_decimal x q hf)]

theorem fillStr_idem (v : Val) : fillStr (fillStr v) = fillStr v := rfl

theorem normalizeRow_idem (r : Row) : normalizeRow (normalizeRow r) = normalizeRow r := by
  simp only [normalizeRow, Row.mk.injEq]
  refine ⟨?_, rfl, rfl, rfl, rfl, rfl, ?_, ?_⟩
  · show Val.str (pyStrip (pyStrip (pyStr r.wo))) = Val.str (pyStrip (pyStr r.wo))
    rw [pyStrip_idem]
  · exact parse_date_idem _
  · exact parse_price_idem _

theorem normalizeTable_idem (df : List Row) :
    normalizeTable (normalizeTable df) = normalizeTable df := by
  rw [normalizeTable, normalizeTable, normalize_df, normalize_df]
  have h1 : ((df.map normalizeRow).filter maskKeep).map normalizeRow
      = (df.map normalizeRow).filter maskKeep := by
    have h2 : ∀ a ∈ (df.map normalizeRow).filter maskKeep, normalizeRow a = id a := by
      intro a ha
      have ham := List.mem_of_mem_filter ha
      obtain ⟨x, -, hx⟩ := List.mem_map.mp ham
      rw [← hx, normalizeRow_idem]
      rfl
    rw [List.map_congr_left h2, List.map_id]
  rw [h1, List.filter_filter]
  simp

/-! ## ISO round trip for dates -/

theorem daysInMonth_le (y m : Nat) : daysInMonth y m ≤ 31 := by
  rw [daysInMonth]
  split_ifs <;> simp

theorem dateOk_bounds (d : Date) (h : dateOk d = true) :
    1677 ≤ d.year ∧ d.year ≤ 2262 ∧ 1 ≤ d.month ∧ d.month ≤ 12 ∧ 1 ≤ d.day ∧ d.day ≤ 31 := by
  have hdm := daysInMonth_le d.year d.month
  rw [dateOk, dateValid, dateInTsRange, dateLE, dateLE] at h
  simp only [Bool.and_eq_true, Bool.or_eq_true, decide_eq_true_eq] at h
  obtain ⟨⟨⟨⟨⟨h1, h2⟩, h3⟩, h4⟩, h5⟩, h6, h7⟩ := h
  refine ⟨?_, ?_, h2, h3, h4, le_trans h5 hdm⟩
  · rcases h6 with h6 | ⟨h6, -⟩ <;> omega
  · rcases h7 with h7 | ⟨h7, -⟩ <;> omega

theorem digits_no_dash (l : List Char) (h : ∀ c ∈ l, c.isDigit = true) : '-' ∉ l := by
  intro hc
  have := h _ hc
  revert this
  decide

theorem splitDash_isoDateL (d : Date) :
    splitDash (isoDateL d)
      = [padLeft 4 (natDigs d.year), padLeft 2 (natDigs d.month), padLeft 2 (natDigs d.day)] := by
  rw [isoDateL]
  rw [splitDash_append _ _ (digits_no_dash _ (padLeft_digits _ _ (natDigs_digits _)))]
  rw [splitDash_append _ _ (digits_no_dash _ (padLeft_digits _ _ (natDigs_digits _)))]
  rw [splitDash_no_dash _ (digits_no_dash _ (padLeft_digits _ _ (natDigs_digits _)))]

theorem parseISO_isoDateL (d : Date) (h : dateOk d = true) :
    parseISO (isoDateL d) = Option.some d := by
  obtain ⟨hy1, hy2, hm1, hm2, hd1, hd2⟩ := dateOk_bounds d h
  rw [parseISO, splitDash_isoDateL]
  dsimp only
  have hylen : (natDigs d.year).length ≤ 4 := natDigs_length_le _ _ (by omega) (by omega)
  have hmlen : (natDigs d.month).length ≤ 2 := natDigs_length_le _ _ (by omega) (by omega)
  have hdlen : (natDigs d.day).length ≤ 2 := natDigs_length_le _ _ (by omega) (by omega)
  rw [if_pos]
  · rw [digsVal_padLeft, digsVal_padLeft, digsVal_padLeft,
      digsVal_natDigs, digsVal_natDigs, digsVal_natDigs]
    rw [mkDateChecked, if_pos h]
  · refine ⟨padLeft_ne_nil _ _ (natDigs_ne_nil _), ?_,
      padLeft_ne_nil _ _ (natDigs_ne_nil _), ?_,
      padLeft_ne_nil _ _ (natDigs_ne_nil _), ?_,
      padLeft_digits _ _ (natDigs_digits _),
      padLeft_digits _ _ (natDigs_digits _),
      padLeft_digits _ _ (natDigs_digits _)⟩
    · rw [padLeft_length _ _ hylen]
    · rw [padLeft_length _ _ hmlen]
    · rw [padLeft_length _ _ hdlen]

theorem parse_date_isoDate (d : Date) (h : dateOk d = true) :
    parse_date (Val.str (isoDate d)) = Val.date d := by
  rw [parse_date]
  have hstr : pyStr (Val.str (isoDate d)) = isoDate d := rfl
  obtain ⟨h1, h2, h3⟩ := isoDate_not_reserved d
  rw [if_neg]
  · rw [if_neg (by simp [isna])]
    have hco : toDatetimeCoerce (Val.str (isoDate d)) = parseISO (stripL (isoDate d).data) := rfl
    have hdata : (isoDate d).data = isoDateL d := rfl
    rw [hco, hdata, stripL_eq_self _ (isoDateL_no_space d), parseISO_isoDateL d h]
  · rw [hstr, pyStrip_isoDate]
    simp only [not_or]
    exact ⟨by simp, h1, h2, h3⟩

theorem parse_date_val_none : parse_date Val.none = Val.nat_sentinel := by decide

/-! ## Row-level save/load round trip -/

theorem loadRow_rowToStore (label : Option String) (x : Row) (flag : Bool)
    (hnan : parse_price x.price ≠ Val.float PyF.nan)
    (hna : parse_price x.price = Val.na → flag = true) :
    ∃ sr, rowToStore label (normalizeRow x) = Option.some sr
      ∧ loadRow flag sr = normalizeRow x
      ∧ (parse_price x.price = Val.na → sr.price = Option.none) := by
  have hsched : ∃ sd, serializeSched (parse_date x.scheduled_date) = Option.some sd
      ∧ parse_date (match sd with
          | Option.some s => Val.str s
          | Option.none => Val.none) = parse_date x.scheduled_date := by
    rcases parse_date_shape x.scheduled_date with ⟨d, hd, hok⟩ | hd
    · refine ⟨Option.some (isoDate d), ?_, ?_⟩
      · rw [hd]; rfl
      · rw [hd]
        exact parse_date_isoDate d hok
    · refine ⟨Option.none, ?_, ?_⟩
      · rw [hd]; rfl
      · rw [hd]
        exact parse_date_val_none
  have hprice : ∃ pr, serializePrice (parse_price x.price) = Option.some pr
      ∧ (match pr with
          | Option.some f => Val.float f
          | Option.none => if flag then Val.na else Val.float PyF.nan) = parse_price x.price
      ∧ (parse_price x.price = Val.na → pr = Option.none) := by
    rcases parse_price_shape x.price with hpna | ⟨f, hf⟩
    · refine ⟨Option.none, by rw [hpna]; rfl, ?_, fun _ => rfl⟩
      rw [hpna, hna hpna]
      rfl
    · cases f with
      | nan => exact absurd hf hnan
      | num q =>
        refine ⟨Option.some (PyF.num q), by rw [hf]; rfl, by rw [hf], ?_⟩
        rw [hf]
        intro hc
        exact Val.noConfusion hc
      | inf =>
        refine ⟨Option.some PyF.inf, by rw [hf]; rfl, by rw [hf], ?_⟩
        rw [hf]
        intro hc
        exact Val.noConfusion hc
      | ninf =>
        refine ⟨Option.some PyF.ninf, by rw [hf]; rfl, by rw [hf], ?_⟩
        rw [hf]
        intro hc
        exact Val.noConfusion hc
  obtain ⟨sd, hsd, hsdload⟩ := hsched
  obtain ⟨pr, hpr, hprload, hprnone⟩ := hprice
  have e1 : (normalizeRow x).scheduled_date = parse_date x.scheduled_date := rfl
  have e2 : (normalizeRow x).price = parse_price x.price := rfl
  cases hrow : rowToStore label (normalizeRow x) with
  | none =>
    rw [rowToStore, e1, e2, hsd, hpr] at hrow
    exact Option.noConfusion hrow
  | some sr =>
    refine ⟨sr, rfl, ?_, ?_⟩
    · rw [rowToStore, e1, e2, hsd, hpr] at hrow
      have hsr := Option.some.inj hrow
      rw [← hsr]
      simp only [loadRow, normalizeRow, Option.getD_some, Row.mk.injEq]
      refine ⟨?_, rfl, rfl, rfl, rfl, rfl, ?_, ?_⟩
      · show Val.str (pyStrip (pyStr (Val.str (pyStrip (pyStr x.wo)))))
          = Val.str (pyStrip (pyStr x.wo))
        rw [show pyStr (Val.str (pyStrip (pyStr x.wo))) = pyStrip (pyStr x.wo) from rfl,
          pyStrip_idem]
      · exact hsdload
      · exact hprload
    · intro hnaeq
      rw [rowToStore, e1, e2, hsd, hpr] at hrow
      have hsr := Option.some.inj hrow
      rw [← hsr, hprnone hnaeq]

theorem mapRows_forall (label : Option String) (df : List Row) (g : Row → StoreRow)
    (h : ∀ r ∈ df, rowToStore label r = Option.some (g r)) :
    mapRows label df = Option.some (df.map g) := by
  induction df with
  | nil => rfl
  | cons r t ih =>
    rw [mapRows, h r (List.mem_cons_self r t),
      ih (fun y hy => h y (List.mem_cons_of_mem r hy))]
    rfl

theorem mapRows_length (label : Option String) (df : List Row) (rows : List StoreRow)
    (h : mapRows label df = Option.some rows) : rows.length = df.length := by
  induction df generalizing rows with
  | nil =>
    rw [mapRows] at h
    rw [← Option.some.inj h]
    rfl
  | cons r t ih =>
    rw [mapRows] at h
    cases h1 : rowToStore label r with
    | none =>
      rw [h1] at h
      exact absurd h (by simp)
    | some sr =>
      cases h2 : mapRows label t with
      | none =>
        rw [h1, h2] at h
        exact absurd h (by simp)
      | some st =>
        rw [h1, h2] at h
        rw [← Option.some.inj h]
        simp only [List.length_cons]
        rw [ih st h2]

/-! ## Batching lemmas -/

theorem chunks500_flatten (l : List StoreRow) : (chunks500 l).flatten = l := by
  generalize hn : l.length = n
  induction n using Nat.strong_induction_on generalizing l with
  | _ n ih =>
    cases l with
    | nil =>
      rw [chunks500]
      rfl
    | cons x t =>
      rw [chunks500, List.flatten_cons]
      have hlen : ((x :: t).drop 500).length < n := by
        subst hn
        simp only [List.length_drop, List.length_cons]
        omega
      rw [ih _ hlen _ rfl]
      exact List.take_append_drop 500 (x :: t)

theorem chunks500_length (l : List StoreRow) :
    (chunks500 l).length = (l.length + 499) / 500 := by
  generalize hn : l.length = n
  induction n using Nat.strong_induction_on generalizing l with
  | _ n ih =>
    cases l with
    | nil =>
      subst hn
      rw [chunks500]
      rfl
    | cons x t =>
      rw [chunks500, List.length_cons]
      have hdl : ((x :: t).drop 500).length = (t.length + 1) - 500 := by
        simp
      have hlen : ((x :: t).drop 500).length < n := by
        subst hn
        simp only [List.length_drop, List.length_cons]
        omega
      rw [ih _ hlen _ rfl, hdl]
      subst hn
      simp only [List.length_cons]
      omega

theorem chunks500_batch_le (l : List StoreRow) :
    ∀ b ∈ chunks500 l, b.length ≤ 500 := by
  generalize hn : l.length = n
  induction n using Nat.strong_induction_on generalizing l with
  | _ n ih =>
    cases l with
    | nil =>
      intro b hb
      rw [chunks500] at hb
      exact absurd hb (by simp)
    | cons x t =>
      intro b hb
      rw [chunks500] at hb
      rcases List.mem_cons.mp hb with hb | hb
      · rw [hb]
        have := List.length_take 500 (x :: t)
        omega
      · have hlen : ((x :: t).drop 500).length < n := by
          subst hn
          simp only [List.length_drop, List.length_cons]
          omega
        exact ih _ hlen _ rfl b hb

theorem mapRows_pointwise (label : Option String) (df : List Row) (ld : StoreRow → Row) :
    ∀ rows, mapRows label df = Option.some rows →
      (∀ r ∈ df, ∀ sr, rowToStore label r = Option.some sr → ld sr = r) →
      rows.map ld = df := by
  induction df with
  | nil =>
    intro rows h _
    rw [mapRows] at h
    rw [← Option.some.inj h]
    rfl
  | cons r t ih =>
    intro rows h hld
    rw [mapRows] at h
    cases h1 : rowToStore label r with
    | none =>
      rw [h1] at h
      exact absurd h (by simp)
    | some sr =>
      cases h2 : mapRows label t with
      | none =>
        rw [h1, h2] at h
        exact absurd h (by simp)
      | some st =>
        rw [h1, h2] at h
        rw [← Option.some.inj h, List.map_cons,
          hld r (List.mem_cons_self r t) sr h1,
          ih st h2 (fun y hy sy hsy => hld y (List.mem_cons_of_mem r hy) sy hsy)]

theorem mapRows_all_price_none (label : Option String) (df : List Row) :
    ∀ rows, mapRows label df = Option.some rows →
      (∀ r ∈ df, ∀ sr, rowToStore label r = Option.some sr → sr.price = Option.none) →
      rows.all (fun sr => sr.price.isNone) = true := by
  induction df with
  | nil =>
    intro rows h _
    rw [mapRows] at h
    rw [← Option.some.inj h]
    rfl
  | cons r t ih =>
    intro rows h hp
    rw [mapRows] at h
    cases h1 : rowToStore label r with
    | none =>
      rw [h1] at h
      exact absurd h (by simp)
    | some sr =>
      cases h2 : mapRows label t with
      | none =>
        rw [h1, h2] at h
        exact absurd h (by simp)
      | some st =>
        rw [h1, h2] at h
        rw [← Option.some.inj h, List.all_cons,
          hp r (List.mem_cons_self r t) sr h1,
          ih st h2 (fun y hy sy hsy => hp y (List.mem_cons_of_mem r hy) sy hsy)]
        rfl

theorem deleteStep_clean (store : List StoreRow) (h : ∀ r ∈ store, neqMatches r = true) :
    deleteStep store = [] := by
  rw [deleteStep, List.filter_eq_nil_iff]
  intro r hr
  rw [h r hr]
  simp

theorem mem_normalizeTable (T : List Row) (r : Row) (h : r ∈ normalizeTable T) :
    ∃ x ∈ T, r = normalizeRow x := by
  rw [normalizeTable] at h
  have hm := List.mem_of_mem_filter h
  rw [normalize_df] at hm
  obtain ⟨x, hx, hxr⟩ := List.mem_map.mp hm
  exact ⟨x, hx, hxr.symm⟩

/-- The optional-field typing of the spec's OrderRecord: a scheduled date
that is a calendar date or missing, and a price that is a float or
missing.  Exactly the rows `save_data` can serialize without raising. -/
def recordTyped (r : Row) : Prop :=
  (r.scheduled_date = Val.nat_sentinel ∨ r.scheduled_date = Val.none
    ∨ ∃ d, r.scheduled_date = Val.date d)
  ∧ (r.price = Val.na ∨ r.price = Val.none ∨ ∃ f, r.price = Val.float f)

theorem rowToStore_typed (label : Option String) (r : Row) (h : recordTyped r) :
    ∃ sr, rowToStore label r = Option.some sr := by
  obtain ⟨hs, hp⟩ := h
  have hsched : ∃ sd, serializeSched r.scheduled_date = Option.some sd := by
    rcases hs with hs | hs | ⟨d, hs⟩ <;> rw [hs]
    · exact ⟨Option.none, rfl⟩
    · exact ⟨Option.none, rfl⟩
    · exact ⟨Option.some (isoDate d), rfl⟩
  have hprice : ∃ pr, serializePrice r.price = Option.some pr := by
    rcases hp with hp | hp | ⟨f, hp⟩ <;> rw [hp]
    · exact ⟨Option.none, rfl⟩
    · exact ⟨Option.none, rfl⟩
    · cases f with
      | nan => exact ⟨Option.none, rfl⟩
      | inf => exact ⟨Option.some PyF.inf, rfl⟩
      | ninf => exact ⟨Option.some PyF.ninf, rfl⟩
      | num q => exact ⟨Option.some (PyF.num q), rfl⟩
  obtain ⟨sd, hsd⟩ := hsched
  obtain ⟨pr, hpr⟩ := hprice
  exact ⟨_, by rw [rowToStore, hsd, hpr]⟩

theorem mapRows_typed (label : Option String) (df : List Row)
    (h : ∀ r ∈ df, recordTyped r) : ∃ rows, mapRows label df = Option.some rows := by
  induction df with
  | nil => exact ⟨[], rfl⟩
  | cons r t ih =>
    obtain ⟨sr, hsr⟩ := rowToStore_typed label r (h r (List.mem_cons_self r t))
    obtain ⟨rows, hm⟩ := ih (fun y hy => h y (List.mem_cons_of_mem r hy))
    exact ⟨sr :: rows, by rw [mapRows, hsr, hm]⟩

/-- The general save-then-load round trip: if the prior store has no rows
the `neq` delete filter misses (no `NULL` or sentinel-valued `wo`), `T` is
a fixed point of `normalizeTable`, no price cell holds NaN, and the Price
column is homogeneous (either every cell is the `NA` sentinel or none is —
otherwise pandas' float64 coercion on load turns the stored `NULL`s into
NaN), then `load_data` after `save_data` returns exactly `T`. -/
theorem save_load_round_trip (store : List StoreRow) (T : List Row) (label : Option String)
    (hfix : normalizeTable T = T)
    (hclean : ∀ r ∈ store, neqMatches r = true)
    (hnan : ∀ r ∈ T, r.price ≠ Val.float PyF.nan)
    (hhom : (∀ r ∈ T, r.price = Val.na) ∨ (∀ r ∈ T, r.price ≠ Val.na)) :
    (load_data (save_data store T label)).1 = normalizeTable T := by
  rw [hfix]
  have hdel : deleteStep store = [] := deleteStep_clean store hclean
  by_cases hT : T = []
  · subst hT
    rw [save_data, if_pos rfl, hdel]
    rfl
  · rw [save_data, if_neg hT, hdel, List.nil_append]
    have hsrc : ∀ r ∈ T, ∃ x, r = normalizeRow x := by
      intro r hr
      have hrn : r ∈ normalizeTable T := by rw [hfix]; exact hr
      obtain ⟨x, -, hx⟩ := mem_normalizeTable T r hrn
      exact ⟨x, hx⟩
    have hty : ∀ r ∈ T, recordTyped r := by
      intro r hr
      obtain ⟨x, hx⟩ := hsrc r hr
      subst hx
      constructor
      · rcases parse_date_shape x.scheduled_date with ⟨d, hd, -⟩ | hd
        · exact Or.inr (Or.inr ⟨d, hd⟩)
        · exact Or.inl hd
      · rcases parse_price_shape x.price with hna2 | ⟨f, hf⟩
        · exact Or.inl hna2
        · exact Or.inr (Or.inr ⟨f, hf⟩)
    obtain ⟨rows, hm⟩ := mapRows_typed label T hty
    rw [saveBatches, hm, chunks500_flatten]
    cases hrows : rows with
    | nil =>
      exfalso
      have := mapRows_length label T rows hm
      rw [hrows] at this
      simp only [List.length_nil] at this
      exact hT (List.length_eq_zero.mp this.symm)
    | cons r0 rt =>
      rw [load_data]
      show (r0 :: rt).map (loadRow ((r0 :: rt).all (fun sr => sr.price.isNone))) = T
      rw [← hrows]
      rcases hhom with hallna | hnona
      · have hflag : rows.all (fun sr => sr.price.isNone) = true := by
          apply mapRows_all_price_none label T rows hm
          intro r hr sr hsr
          obtain ⟨x, hx⟩ := hsrc r hr
          subst hx
          have hpn : parse_price x.price ≠ Val.float PyF.nan := hnan _ hr
          have hpna : parse_price x.price = Val.na := hallna _ hr
          obtain ⟨sr0, hsr0, -, hnone⟩ :=
            loadRow_rowToStore label x true hpn (fun _ => rfl)
          rw [hsr0] at hsr
          rw [← Option.some.inj hsr]
          exact hnone hpna
        rw [hflag]
        apply mapRows_pointwise label T (loadRow true) rows hm
        intro r hr sr hsr
        obtain ⟨x, hx⟩ := hsrc r hr
        subst hx
        have hpn : parse_price x.price ≠ Val.float PyF.nan := hnan _ hr
        obtain ⟨sr0, hsr0, hload, -⟩ :=
          loadRow_rowToStore label x true hpn (fun _ => rfl)
        rw [hsr0] at hsr
        rw [← Option.some.inj hsr]
        exact hload
      · apply mapRows_pointwise label T (loadRow (rows.all (fun sr => sr.price.isNone))) rows hm
        intro r hr sr hsr
        obtain ⟨x, hx⟩ := hsrc r hr
        subst hx
        have hpn : parse_price x.price ≠ Val.float PyF.nan := hnan _ hr
        have hpne : parse_price x.price ≠ Val.na := hnona _ hr
        obtain ⟨sr0, hsr0, hload, -⟩ :=
          loadRow_rowToStore label x (rows.all (fun sr => sr.price.isNone)) hpn
            (fun hc => absurd hc hpne)
        rw [hsr0] at hsr
        rw [← Option.some.inj hsr]
        exact hload

/-! ## The blank-row predicate of the spec, and record typing -/

/-- "Empty after trimming", read off one cell (non-string cells are not
blank). -/
def blankStrB (v : Val) : Bool :=
  match v with
  | Val.str s => pyStrip s == ""
  | _ => false

/-- "WO, Customer Name and Model Description are all empty after
trimming" — the condition under which the spec says a row is dropped. -/
def rowAllBlank (r : Row) : Bool :=
  blankStrB r.wo && blankStrB r.customer_name && blankStrB r.model_description

theorem strStripNe_eq_not_blank (v : Val) : strStripNe v = !(blankStrB v) := by
  cases v <;> rfl

theorem maskKeep_eq_not_blank (r : Row) : maskKeep r = !(rowAllBlank r) := by
  rw [maskKeep, rowAllBlank, strStripNe_eq_not_blank, strStripNe_eq_not_blank,
    strStripNe_eq_not_blank]
  cases blankStrB r.wo <;> cases blankStrB r.customer_name
    <;> cases blankStrB r.model_description <;> rfl


/-! ## The claims -/

/-- C2: for every input table with the canonical columns, `normalize`
(i.e. `normalize_df` followed by the Apply-handler mask) drops exactly the
rows whose WO, Customer Name and Model Description are all empty after
trimming: the normalized image of a source row is in the output iff it is
not all-blank, and every output row is the not-all-blank normalized image
of a source row. -/
theorem claim_C2_normalize_drops_exactly_blank_rows :
    ∀ T : List Row,
      (∀ x ∈ T,
        (rowAllBlank (normalizeRow x) = true → normalizeRow x ∉ normalizeTable T)
        ∧ (rowAllBlank (normalizeRow x) = false → normalizeRow x ∈ normalizeTable T))
      ∧ ∀ r ∈ normalizeTable T, (∃ y ∈ T, r = normalizeRow y) ∧ rowAllBlank r = false := by
  intro T
  constructor
  · intro x hx
    constructor
    · intro hblank hmem
      rw [normalizeTable, List.mem_filter, maskKeep_eq_not_blank, hblank] at hmem
      exact absurd hmem.2 (by simp)
    · intro hblank
      rw [normalizeTable, List.mem_filter, maskKeep_eq_not_blank, hblank]
      exact ⟨List.mem_map_of_mem normalizeRow hx, rfl⟩
  · intro r hr
    have hkeep := (List.mem_filter.mp hr).2
    rw [maskKeep_eq_not_blank] at hkeep
    obtain ⟨y, hy, hyr⟩ := mem_normalizeTable T r hr
    refine ⟨⟨y, hy, hyr⟩, ?_⟩
    cases hb : rowAllBlank r with
    | false => rfl
    | true =>
      rw [hb] at hkeep
      exact absurd hkeep (by simp)

/-- Witness for C2 at a concrete table: a fully blank row is dropped and a
row with a non-blank WO is kept. -/
theorem claim_C2_witness :
    (rowAllBlank (normalizeRow ⟨Val.str " ", Val.str "q", Val.str "", Val.str "",
        Val.str "", Val.str "", Val.nat_sentinel, Val.na⟩) = true
      ∧ normalizeRow ⟨Val.str " ", Val.str "q", Val.str "", Val.str "",
        Val.str "", Val.str "", Val.nat_sentinel, Val.na⟩
        ∉ normalizeTable [⟨Val.str " ", Val.str "q", Val.str "", Val.str "",
          Val.str "", Val.str "", Val.nat_sentinel, Val.na⟩,
          ⟨Val.str "X", Val.str "", Val.str "", Val.str "",
          Val.str "", Val.str "", Val.nat_sentinel, Val.na⟩])
    ∧ (rowAllBlank (normalizeRow ⟨Val.str "X", Val.str "", Val.str "", Val.str "",
        Val.str "", Val.str "", Val.nat_sentinel, Val.na⟩) = false
      ∧ normalizeRow ⟨Val.str "X", Val.str "", Val.str "", Val.str "",
        Val.str "", Val.str "", Val.nat_sentinel, Val.na⟩
        ∈ normalizeTable [⟨Val.str " ", Val.str "q", Val.str "", Val.str "",
          Val.str "", Val.str "", Val.nat_sentinel, Val.na⟩,
          ⟨Val.str "X", Val.str "", Val.str "", Val.str "",
          Val.str "", Val.str "", Val.nat_sentinel, Val.na⟩]) := by
  refine ⟨⟨by decide, ?_⟩, ⟨by decide, ?_⟩⟩
  · exact ((claim_C2_normalize_drops_exactly_blank_rows _).1 _
      (by decide)).1 (by decide)
  · exact ((claim_C2_normalize_drops_exactly_blank_rows _).1 _
      (by decide)).2 (by decide)

/-- C3: `normalize` is idempotent — applying `normalize_df` plus the
blank-row mask twice gives the same table as applying it once, for every
input table with the canonical columns. -/
theorem claim_C3_normalize_idempotent :
    ∀ T : List Row, normalizeTable (normalizeTable T) = normalizeTable T :=
  normalizeTable_idem

/-- C4: `parse_date` is total and matches its reference definition: every
cell value maps to a calendar date or the `NaT` sentinel (never raises);
`None`, the empty string, the literal `"None"` and the literal `"NaT"` map
to `NaT`; any other value goes through the lenient parser and unparseable
values also yield `NaT`; parsed values are date-only
(`parse_date "2024-01-15" = date(2024,1,15)`). -/
theorem claim_C4_parse_date_total_and_reference :
    (∀ x : Val, (∃ d, parse_date x = Val.date d) ∨ parse_date x = Val.nat_sentinel)
    ∧ parse_date Val.none = Val.nat_sentinel
    ∧ parse_date (Val.str "") = Val.nat_sentinel
    ∧ parse_date (Val.str "None") = Val.nat_sentinel
    ∧ parse_date (Val.str "NaT") = Val.nat_sentinel
    ∧ (∀ s : String, toDatetimeCoerce (Val.str s) = Option.none →
        parse_date (Val.str s) = Val.nat_sentinel)
    ∧ parse_date (Val.str "not-a-date") = Val.nat_sentinel
    ∧ parse_date (Val.str "2024-01-15") = Val.date ⟨2024, 1, 15⟩ := by
  refine ⟨?_, by decide, by decide, by decide, by decide, ?_, by decide, by decide⟩
  · intro x
    rcases parse_date_shape x with ⟨d, hd, -⟩ | hd
    · exact Or.inl ⟨d, hd⟩
    · exact Or.inr hd
  · intro s hs
    rw [parse_date]
    split
    · rfl
    · split
      · rfl
      · rw [hs]

/-- Witness for C4: the unparseable-input clause at the concrete string
`"garbage"`. -/
theorem claim_C4_witness : parse_date (Val.str "garbage") = Val.nat_sentinel :=
  claim_C4_parse_date_total_and_reference.2.2.2.2.2.1 "garbage" (by decide)

/-- C5: `parse_price` is total and matches its reference definition: every
cell value maps to a number or the `NA` sentinel (never raises); `None`
and blank-after-trim strings map to `NA`; otherwise the string form with
`$` and `,` removed is parsed as a float, unparseable values yielding
`NA`; `parse_price "$1,234.50" = 1234.50`, `parse_price "" = NA`,
`parse_price "garbage" = NA`. -/
theorem claim_C5_parse_price_total_and_reference :
    (∀ x : Val, parse_price x = Val.na ∨ ∃ f, parse_price x = Val.float f)
    ∧ parse_price Val.none = Val.na
    ∧ (∀ s : String, pyStrip s = "" → parse_price (Val.str s) = Val.na)
    ∧ (∀ x : Val, ¬ (x = Val.none ∨ pyStrip (pyStr x) = "") →
        parse_price x = (match parseFloat (stripDollarComma (pyStr x)) with
          | Option.some f => Val.float f
          | Option.none => Val.na))
    ∧ parse_price (Val.str "$1,234.50") = Val.float (PyF.num (2469 / 2))
    ∧ parse_price (Val.str "") = Val.na
    ∧ parse_price (Val.str "garbage") = Val.na := by
  refine ⟨parse_price_shape, by decide, ?_, ?_, ?_, by decide, by decide⟩
  · intro s hs
    rw [parse_price, if_pos]
    exact Or.inr hs
  · intro x hx
    rw [parse_price, if_neg hx]
  · have hclean : stripDollarComma (pyStr (Val.str "$1,234.50"))
        = String.mk ('1' :: '2' :: '3' :: '4' :: '.' :: '5' :: '0' :: []) := by decide
    have hnum : parseNum ('1' :: '2' :: '3' :: '4' :: '.' :: '5' :: '0' :: [])
        = Option.some ((2469 : ℚ) / 2) := by
      have h := parseNum_decimal_string ('1' :: '2' :: '3' :: '4' :: [])
        ('5' :: '0' :: []) (by decide) (by decide) (by decide)
      rw [show ('1' :: '2' :: '3' :: '4' :: []) ++ '.' :: ('5' :: '0' :: [])
        = ('1' :: '2' :: '3' :: '4' :: '.' :: '5' :: '0' :: []) from rfl] at h
      rw [h, show digsVal ('1' :: '2' :: '3' :: '4' :: []) = 1234 from by decide,
        show digsVal ('5' :: '0' :: []) = 50 from by decide,
        show (('5' :: '0' :: []) : List Char).length = 2 from rfl]
      norm_num
    have hfl : parseFloat (String.mk ('1' :: '2' :: '3' :: '4' :: '.' :: '5' :: '0' :: []))
        = Option.some (PyF.num ((2469 : ℚ) / 2)) := by
      rw [parseFloat]
      rw [show stripL ((String.mk ('1' :: '2' :: '3' :: '4' :: '.' :: '5' :: '0' :: [])).data)
        = ('1' :: '2' :: '3' :: '4' :: '.' :: '5' :: '0' :: []) from by decide]
      rw [show headSign ('1' :: '2' :: '3' :: '4' :: '.' :: '5' :: '0' :: [])
        = ((1 : ℤ), ('1' :: '2' :: '3' :: '4' :: '.' :: '5' :: '0' :: [])) from by decide]
      rw [hnum]
      norm_num
    rw [parse_price, if_neg (by decide), hclean, hfl]

/-- Witness for C5: the blank-after-trim clause at `"  "` and the
otherwise-clause at a NaT cell (whose string form `"NaT"` fails the float
parse). -/
theorem claim_C5_witness :
    parse_price (Val.str "  ") = Val.na
    ∧ parse_price Val.nat_sentinel = (match parseFloat (stripDollarComma (pyStr Val.nat_sentinel)) with
        | Option.some f => Val.float f
        | Option.none => Val.na) :=
  ⟨claim_C5_parse_price_total_and_reference.2.2.1 "  " (by decide),
    claim_C5_parse_price_total_and_reference.2.2.2.1 Val.nat_sentinel (by decide)⟩

/-- C10: `parse_price` does not map NaN to the null sentinel: a float NaN
cell (or the string `"nan"`) passes the null/blank guard, `float(...)`
succeeds, and the result is NaN — a value distinct from `NA` — so
`normalize` can yield a Price cell holding NaN. -/
theorem claim_C10_nan_price_not_null :
    parse_price (Val.float PyF.nan) = Val.float PyF.nan
    ∧ parse_price (Val.str "nan") = Val.float PyF.nan
    ∧ Val.float PyF.nan ≠ Val.na
    ∧ ∃ (T : List Row) (r : Row), r ∈ normalizeTable T ∧ r.price = Val.float PyF.nan := by
  refine ⟨by decide, by decide, by decide, ?_⟩
  refine ⟨[⟨Val.str "X", Val.str "", Val.str "", Val.str "", Val.str "", Val.str "",
    Val.nat_sentinel, Val.float PyF.nan⟩],
    normalizeRow ⟨Val.str "X", Val.str "", Val.str "", Val.str "", Val.str "", Val.str "",
    Val.nat_sentinel, Val.float PyF.nan⟩, by decide, by decide⟩

theorem not_neqMatches_iff (r : StoreRow) :
    (!(neqMatches r)) = true ↔ (r.wo = Option.none ∨ r.wo = Option.some "___never___") := by
  rw [neqMatches]
  cases hwo : r.wo with
  | none => simp
  | some s =>
    simp only [Bool.not_not, beq_iff_eq, Option.some.injEq]
    constructor
    · intro h
      exact Or.inr h
    · intro h
      rcases h with h | h
      · exact absurd h (by simp)
      · exact h

/-- C6 counterexample: the delete-where-`wo`-not-equal-sentinel filter does
NOT match a row whose `wo` equals the sentinel (nor one with a null `wo`),
so such rows survive `save_data` — the claim that every prior row is
removed, "including any row whose key happens to equal the sentinel or be
null", is false. -/
theorem claim_C6_counterexample :
    (⟨Option.some "___never___", Option.some "q", Option.some "", Option.some "",
        Option.some "c", Option.some "m", Option.none, Option.none,
        Option.some "f", Option.some 1⟩ : StoreRow)
      ∈ save_data [⟨Option.some "___never___", Option.some "q", Option.some "", Option.some "",
        Option.some "c", Option.some "m", Option.none, Option.none,
        Option.some "f", Option.some 1⟩] [] (Option.some "lbl")
    ∧ (⟨Option.none, Option.some "q", Option.some "", Option.some "",
        Option.some "c", Option.some "m", Option.none, Option.none,
        Option.some "f", Option.some 1⟩ : StoreRow)
      ∈ save_data [⟨Option.none, Option.some "q", Option.some "", Option.some "",
        Option.some "c", Option.some "m", Option.none, Option.none,
        Option.some "f", Option.some 1⟩] [] (Option.some "lbl") := by
  constructor <;> decide

/-- C6 amended: the delete step of `save_data` removes exactly the rows
whose `wo` is non-null and different from `"___never___"`; a row with a
null or sentinel-valued `wo` survives the delete — and hence the whole
`save_data` call — for every prior store state and input table. -/
theorem claim_C6_amended_delete_matches_all_but_sentinel_and_null :
    ∀ (store : List StoreRow) (r : StoreRow),
      (r ∈ deleteStep store
        ↔ r ∈ store ∧ (r.wo = Option.none ∨ r.wo = Option.some "___never___"))
      ∧ ∀ (df : List Row) (label : Option String), r ∈ store →
          (r.wo = Option.none ∨ r.wo = Option.some "___never___") →
          r ∈ save_data store df label := by
  intro store r
  have hmem : r ∈ deleteStep store
      ↔ r ∈ store ∧ (r.wo = Option.none ∨ r.wo = Option.some "___never___") := by
    rw [deleteStep, List.mem_filter, not_neqMatches_iff]
  refine ⟨hmem, ?_⟩
  intro df label hr hwo
  rw [save_data]
  split
  · exact hmem.mpr ⟨hr, hwo⟩
  · exact List.mem_append_left _ (hmem.mpr ⟨hr, hwo⟩)

/-- Witness for the amended C6 at a concrete store and row. -/
theorem claim_C6_amended_witness :
    (⟨Option.some "___never___", Option.none, Option.none, Option.none,
        Option.none, Option.none, Option.none, Option.none,
        Option.none, Option.none⟩ : StoreRow)
      ∈ save_data [⟨Option.some "___never___", Option.none, Option.none, Option.none,
        Option.none, Option.none, Option.none, Option.none,
        Option.none, Option.none⟩] [] Option.none :=
  (claim_C6_amended_delete_matches_all_but_sentinel_and_null _ _).2 [] Option.none
    (by decide) (Or.inr (by decide))

/-- C7 counterexample: `save_data` on an empty table does not always leave
the store empty — a prior row whose `wo` equals the delete sentinel
survives, and the subsequent load returns it rather than an empty table. -/
theorem claim_C7_counterexample :
    save_data [⟨Option.some "___never___", Option.some "q", Option.some "", Option.some "",
        Option.some "c", Option.some "m", Option.none, Option.none,
        Option.some "f", Option.some 1⟩] [] (Option.some "x")
      = [⟨Option.some "___never___", Option.some "q", Option.some "", Option.some "",
        Option.some "c", Option.some "m", Option.none, Option.none,
        Option.some "f", Option.some 1⟩]
    ∧ (load_data (save_data [⟨Option.some "___never___", Option.some "q", Option.some "",
        Option.some "", Option.some "c", Option.some "m", Option.none, Option.none,
        Option.some "f", Option.some 1⟩] [] (Option.some "x"))).1 ≠ [] := by
  constructor <;> decide

/-- C7 amended: `save_data` on an empty table performs the delete and
returns without inserting — the store afterwards is exactly the delete
survivors (rows with null or sentinel `wo`); when the prior store has no
such row, the store ends up empty and `load_data` then returns the empty
table with the canonical columns and no label. -/
theorem claim_C7_amended_save_empty :
    ∀ (store : List StoreRow) (label : Option String),
      save_data store [] label = deleteStep store
      ∧ ((∀ r ∈ store, neqMatches r = true) →
          save_data store [] label = []
          ∧ load_data (save_data store [] label) = ([], Option.none)) := by
  intro store label
  have hsave : save_data store [] label = deleteStep store := by
    rw [save_data, if_pos rfl]
  refine ⟨hsave, ?_⟩
  intro hclean
  have hempty : save_data store [] label = [] := by
    rw [hsave]
    exact deleteStep_clean store hclean
  exact ⟨hempty, by rw [hempty]; rfl⟩

/-- Witness for the amended C7 at a concrete prior store with an ordinary
`wo`. -/
theorem claim_C7_amended_witness :
    save_data [⟨Option.some "W1", Option.some "q", Option.some "", Option.some "",
        Option.some "c", Option.some "m", Option.none, Option.none,
        Option.some "f", Option.some 1⟩] [] (Option.some "x") = []
    ∧ load_data (save_data [⟨Option.some "W1", Option.some "q", Option.some "", Option.some "",
        Option.some "c", Option.some "m", Option.none, Option.none,
        Option.some "f", Option.some 1⟩] [] (Option.some "x")) = ([], Option.none) :=
  (claim_C7_amended_save_empty _ _).2 (by decide)

/-- C8 counterexample: `load_data` does not coerce `WO` — it is absent
from the `fillna("").astype(str)` loop — so a stored row with a null `wo`
loads with a null `WO` cell, refuting "no text cell in the loaded table is
null, regardless of nulls in the stored rows". -/
theorem claim_C8_counterexample :
    ∃ r ∈ (load_data [⟨Option.none, Option.some "q", Option.some "", Option.none,
        Option.some "c", Option.none, Option.none, Option.none,
        Option.some "f", Option.some 1⟩]).1,
      r.wo = Val.none := by
  refine ⟨loadRow true ⟨Option.none, Option.some "q", Option.some "", Option.none,
        Option.some "c", Option.none, Option.none, Option.none,
        Option.some "f", Option.some 1⟩, ?_, ?_⟩ <;> decide

/-- C8 amended: in every loaded table the five fields Quote, PO Number,
Status, Customer Name and Model Description are non-null strings; `WO` is
returned as stored, so it is a string whenever no stored row has a null
`wo` (in particular for any store written by `save_data`). -/
theorem claim_C8_amended_text_fields_non_null :
    ∀ (store : List StoreRow) (r : Row), r ∈ (load_data store).1 →
      ((∃ s, r.quote = Val.str s) ∧ (∃ s, r.po_number = Val.str s)
        ∧ (∃ s, r.status = Val.str s) ∧ (∃ s, r.customer_name = Val.str s)
        ∧ (∃ s, r.model_description = Val.str s))
      ∧ ((∀ sr ∈ store, sr.wo ≠ Option.none) → ∃ s, r.wo = Val.str s) := by
  intro store r hr
  cases store with
  | nil => exact absurd hr (by simp [load_data])
  | cons s0 st =>
    rw [load_data] at hr
    obtain ⟨sr, hsr, hrs⟩ := List.mem_map.mp hr
    subst hrs
    constructor
    · exact ⟨⟨_, rfl⟩, ⟨_, rfl⟩, ⟨_, rfl⟩, ⟨_, rfl⟩, ⟨_, rfl⟩⟩
    · intro hno
      cases hwo : sr.wo with
      | none => exact absurd hwo (hno sr hsr)
      | some s =>
        refine ⟨s, ?_⟩
        rw [loadRow, hwo]

/-- Witness for the amended C8 at a concrete store whose `wo` column is
non-null. -/
theorem claim_C8_amended_witness :
    ((∃ s, (loadRow true ⟨Option.some "W", Option.none, Option.none, Option.none,
        Option.none, Option.none, Option.none, Option.none,
        Option.none, Option.none⟩).quote = Val.str s)
      ∧ (∃ s, (loadRow true ⟨Option.some "W", Option.none, Option.none, Option.none,
        Option.none, Option.none, Option.none, Option.none,
        Option.none, Option.none⟩).po_number = Val.str s)
      ∧ (∃ s, (loadRow true ⟨Option.some "W", Option.none, Option.none, Option.none,
        Option.none, Option.none, Option.none, Option.none,
        Option.none, Option.none⟩).status = Val.str s)
      ∧ (∃ s, (loadRow true ⟨Option.some "W", Option.none, Option.none, Option.none,
        Option.none, Option.none, Option.none, Option.none,
        Option.none, Option.none⟩).customer_name = Val.str s)
      ∧ (∃ s, (loadRow true ⟨Option.some "W", Option.none, Option.none, Option.none,
        Option.none, Option.none, Option.none, Option.none,
        Option.none, Option.none⟩).model_description = Val.str s))
    ∧ ((∀ sr ∈ [(⟨Option.some "W", Option.none, Option.none, Option.none,
        Option.none, Option.none, Option.none, Option.none,
        Option.none, Option.none⟩ : StoreRow)], sr.wo ≠ Option.none) →
      ∃ s, (loadRow true ⟨Option.some "W", Option.none, Option.none, Option.none,
        Option.none, Option.none, Option.none, Option.none,
        Option.none, Option.none⟩).wo = Val.str s) := by
  have h := claim_C8_amended_text_fields_non_null
    [⟨Option.some "W", Option.none, Option.none, Option.none,
      Option.none, Option.none, Option.none, Option.none, Option.none, Option.none⟩]
    (loadRow true ⟨Option.some "W", Option.none, Option.none, Option.none,
      Option.none, Option.none, Option.none, Option.none, Option.none, Option.none⟩)
    (by rw [load_data]; exact List.mem_map_of_mem _ (List.mem_singleton_self _))
  exact ⟨h.1, fun hno => h.2 hno⟩

/-- C1 counterexample: the save-then-load round trip does not hold for
every fixed point of `normalize` and every prior store.  Two price-column
failures: (a) a table whose Price cell is NaN is a fixed point (see C10),
but `save_data` serializes NaN to `NULL` (`pd.isna(nan)` is true) and an
all-`NULL` price column loads back as `NA`, so the loaded table differs
from `normalize(T) = T` in that cell; (b) a table mixing a missing price
with a number is also a fixed point, but on load pandas coerces the mixed
column to float64, so the stored `NULL` comes back as NaN instead of the
`NA` it was saved from. -/
theorem claim_C1_counterexample :
    (normalizeTable [⟨Val.str "X", Val.str "", Val.str "", Val.str "", Val.str "",
        Val.str "", Val.nat_sentinel, Val.float PyF.nan⟩]
      = [⟨Val.str "X", Val.str "", Val.str "", Val.str "", Val.str "",
        Val.str "", Val.nat_sentinel, Val.float PyF.nan⟩]
    ∧ (load_data (save_data [] [⟨Val.str "X", Val.str "", Val.str "", Val.str "", Val.str "",
        Val.str "", Val.nat_sentinel, Val.float PyF.nan⟩] (Option.some "f"))).1
      = [⟨Val.str "X", Val.str "", Val.str "", Val.str "", Val.str "",
        Val.str "", Val.nat_sentinel, Val.na⟩]
    ∧ (load_data (save_data [] [⟨Val.str "X", Val.str "", Val.str "", Val.str "", Val.str "",
        Val.str "", Val.nat_sentinel, Val.float PyF.nan⟩] (Option.some "f"))).1
      ≠ normalizeTable [⟨Val.str "X", Val.str "", Val.str "", Val.str "", Val.str "",
        Val.str "", Val.nat_sentinel, Val.float PyF.nan⟩])
    ∧ (normalizeTable [⟨Val.str "X", Val.str "", Val.str "", Val.str "", Val.str "",
        Val.str "", Val.nat_sentinel, Val.na⟩,
        ⟨Val.str "Y", Val.str "", Val.str "", Val.str "", Val.str "",
        Val.str "", Val.nat_sentinel, Val.float (PyF.num 1)⟩]
      = [⟨Val.str "X", Val.str "", Val.str "", Val.str "", Val.str "",
        Val.str "", Val.nat_sentinel, Val.na⟩,
        ⟨Val.str "Y", Val.str "", Val.str "", Val.str "", Val.str "",
        Val.str "", Val.nat_sentinel, Val.float (PyF.num 1)⟩]
    ∧ (load_data (save_data [] [⟨Val.str "X", Val.str "", Val.str "", Val.str "", Val.str "",
        Val.str "", Val.nat_sentinel, Val.na⟩,
        ⟨Val.str "Y", Val.str "", Val.str "", Val.str "", Val.str "",
        Val.str "", Val.nat_sentinel, Val.float (PyF.num 1)⟩] (Option.some "f"))).1
      = [⟨Val.str "X", Val.str "", Val.str "", Val.str "", Val.str "",
        Val.str "", Val.nat_sentinel, Val.float PyF.nan⟩,
        ⟨Val.str "Y", Val.str "", Val.str "", Val.str "", Val.str "",
        Val.str "", Val.nat_sentinel, Val.float (PyF.num 1)⟩]
    ∧ (load_data (save_data [] [⟨Val.str "X", Val.str "", Val.str "", Val.str "", Val.str "",
        Val.str "", Val.nat_sentinel, Val.na⟩,
        ⟨Val.str "Y", Val.str "", Val.str "", Val.str "", Val.str "",
        Val.str "", Val.nat_sentinel, Val.float (PyF.num 1)⟩] (Option.some "f"))).1
      ≠ normalizeTable [⟨Val.str "X", Val.str "", Val.str "", Val.str "", Val.str "",
        Val.str "", Val.nat_sentinel, Val.na⟩,
        ⟨Val.str "Y", Val.str "", Val.str "", Val.str "", Val.str "",
        Val.str "", Val.nat_sentinel, Val.float (PyF.num 1)⟩]) := by
  have hsave : save_data [] [⟨Val.str "X", Val.str "", Val.str "", Val.str "", Val.str "",
      Val.str "", Val.nat_sentinel, Val.float PyF.nan⟩] (Option.some "f")
      = [⟨Option.some "X", Option.some "", Option.some "", Option.some "",
        Option.some "", Option.some "", Option.none, Option.none,
        Option.some "f", Option.none⟩] := by
    rw [save_data, if_neg (by decide), saveBatches,
      show mapRows (Option.some "f") [⟨Val.str "X", Val.str "", Val.str "", Val.str "",
        Val.str "", Val.str "", Val.nat_sentinel, Val.float PyF.nan⟩]
      = Option.some [⟨Option.some "X", Option.some "", Option.some "", Option.some "",
        Option.some "", Option.some "", Option.none, Option.none,
        Option.some "f", Option.none⟩] from by decide]
    dsimp only
    rw [chunks500.eq_def]
    dsimp only
    rw [show (([⟨Option.some "X", Option.some "", Option.some "", Option.some "",
        Option.some "", Option.some "", Option.none, Option.none,
        Option.some "f", Option.none⟩] : List StoreRow).drop 500) = [] from by decide]
    rw [chunks500.eq_def]
    decide
  have h2 : normalizeRow ⟨Val.str "Y", Val.str "", Val.str "", Val.str "", Val.str "",
      Val.str "", Val.nat_sentinel, Val.float (PyF.num 1)⟩
      = ⟨Val.str "Y", Val.str "", Val.str "", Val.str "", Val.str "",
      Val.str "", Val.nat_sentinel, Val.float (PyF.num 1)⟩ := by
    simp only [normalizeRow, Row.mk.injEq]
    refine ⟨by decide, by decide, by decide, by decide, by decide, by decide, by decide, ?_⟩
    exact parse_price_float_num 1 ⟨0, by norm_num⟩
  have hfix2 : normalizeTable [⟨Val.str "X", Val.str "", Val.str "", Val.str "", Val.str "",
      Val.str "", Val.nat_sentinel, Val.na⟩,
      ⟨Val.str "Y", Val.str "", Val.str "", Val.str "", Val.str "",
      Val.str "", Val.nat_sentinel, Val.float (PyF.num 1)⟩]
      = [⟨Val.str "X", Val.str "", Val.str "", Val.str "", Val.str "",
      Val.str "", Val.nat_sentinel, Val.na⟩,
      ⟨Val.str "Y", Val.str "", Val.str "", Val.str "", Val.str "",
      Val.str "", Val.nat_sentinel, Val.float (PyF.num 1)⟩] := by
    rw [normalizeTable, normalize_df, List.map_cons, List.map_cons, List.map_nil,
      show normalizeRow ⟨Val.str "X", Val.str "", Val.str "", Val.str "", Val.str "",
        Val.str "", Val.nat_sentinel, Val.na⟩
        = ⟨Val.str "X", Val.str "", Val.str "", Val.str "", Val.str "",
        Val.str "", Val.nat_sentinel, Val.na⟩ from by decide, h2]
    rw [List.filter_cons_of_pos (by decide), List.filter_cons_of_pos (by decide),
      List.filter_nil]
  have hmap2 : mapRows (Option.some "f") [⟨Val.str "X", Val.str "", Val.str "", Val.str "",
      Val.str "", Val.str "", Val.nat_sentinel, Val.na⟩,
      ⟨Val.str "Y", Val.str "", Val.str "", Val.str "", Val.str "",
      Val.str "", Val.nat_sentinel, Val.float (PyF.num 1)⟩]
      = Option.some [⟨Option.some "X", Option.some "", Option.some "", Option.some "",
        Option.some "", Option.some "", Option.none, Option.none,
        Option.some "f", Option.none⟩,
        ⟨Option.some "Y", Option.some "", Option.some "", Option.some "",
        Option.some "", Option.some "", Option.none, Option.some (PyF.num 1),
        Option.some "f", Option.none⟩] := by
    rfl
  have hsave2 : save_data [] [⟨Val.str "X", Val.str "", Val.str "", Val.str "", Val.str "",
      Val.str "", Val.nat_sentinel, Val.na⟩,
      ⟨Val.str "Y", Val.str "", Val.str "", Val.str "", Val.str "",
      Val.str "", Val.nat_sentinel, Val.float (PyF.num 1)⟩] (Option.some "f")
      = [⟨Option.some "X", Option.some "", Option.some "", Option.some "",
        Option.some "", Option.some "", Option.none, Option.none,
        Option.some "f", Option.none⟩,
        ⟨Option.some "Y", Option.some "", Option.some "", Option.some "",
        Option.some "", Option.some "", Option.none, Option.some (PyF.num 1),
        Option.some "f", Option.none⟩] := by
    rw [save_data, if_neg (by decide), saveBatches, hmap2]
    dsimp only
    rw [chunks500.eq_def]
    dsimp only
    rw [show (([⟨Option.some "X", Option.some "", Option.some "", Option.some "",
        Option.some "", Option.some "", Option.none, Option.none,
        Option.some "f", Option.none⟩,
        ⟨Option.some "Y", Option.some "", Option.some "", Option.some "",
        Option.some "", Option.some "", Option.none, Option.some (PyF.num 1),
        Option.some "f", Option.none⟩] : List StoreRow).drop 500) = [] from rfl]
    rw [chunks500.eq_def]
    rfl
  refine ⟨⟨by decide, ?_, ?_⟩, hfix2, ?_, ?_⟩
  · rw [hsave]
    decide
  · rw [hsave]
    decide
  · rw [hsave2]
    rfl
  · rw [hsave2, hfix2]
    intro hc
    have := List.head_eq_of_cons_eq hc
    rw [Row.mk.injEq] at this
    exact Val.noConfusion this.2.2.2.2.2.2.2

/-- C1 amended: the round trip holds once the failure modes exposed by the
counterexamples are excluded — for every prior store state with no null-
or sentinel-`wo` rows (the delete then clears it completely) and every
`normalize` fixed point `T` whose Price column holds no NaN and is
homogeneous (either every Price cell is the `NA` sentinel or none is, so
pandas' column dtype inference on load cannot turn a stored `NULL` into
NaN), `load_data` after `save_data` returns exactly `normalize(T) = T`
(all canonical columns present). -/
theorem claim_C1_amended_round_trip :
    ∀ (store : List StoreRow) (T : List Row) (label : Option String),
      normalizeTable T = T →
      (∀ r ∈ store, neqMatches r = true) →
      (∀ r ∈ T, r.price ≠ Val.float PyF.nan) →
      ((∀ r ∈ T, r.price = Val.na) ∨ (∀ r ∈ T, r.price ≠ Val.na)) →
      (load_data (save_data store T label)).1 = normalizeTable T :=
  fun store T label => save_load_round_trip store T label

/-- Witness for the amended C1 at a concrete one-row table and empty prior
store. -/
theorem claim_C1_amended_witness :
    (load_data (save_data [] [⟨Val.str "X", Val.str "", Val.str "", Val.str "", Val.str "",
        Val.str "", Val.nat_sentinel, Val.na⟩] (Option.some "f"))).1
      = normalizeTable [⟨Val.str "X", Val.str "", Val.str "", Val.str "", Val.str "",
        Val.str "", Val.nat_sentinel, Val.na⟩] :=
  claim_C1_amended_round_trip [] _ (Option.some "f") (by decide) (by simp)
    (by intro r hr
        rw [List.mem_singleton] at hr
        subst hr
        decide)
    (Or.inl (by intro r hr
                rw [List.mem_singleton] at hr
                subst hr
                rfl))

/-- C9: for every non-empty table of spec-typed order records (scheduled
date a date or missing, price a number or missing — exactly the rows
`save_data` can serialize), `save_data` issues exactly
`⌈n/500⌉ = (n + 499) / 500` insert calls, each carrying at most 500 rows,
and the concatenation of the batches in call order is the full mapped row
list in table order; the store receives precisely those rows appended
after the delete. -/
theorem claim_C9_insert_batching :
    ∀ (df : List Row) (label : Option String) (store : List StoreRow),
      df ≠ [] → (∀ r ∈ df, recordTyped r) →
      ∃ rows, mapRows label df = Option.some rows
        ∧ rows.length = df.length
        ∧ saveBatches label df = chunks500 rows
        ∧ (saveBatches label df).length = (df.length + 499) / 500
        ∧ (∀ b ∈ saveBatches label df, b.length ≤ 500)
        ∧ (saveBatches label df).flatten = rows
        ∧ save_data store df label = deleteStep store ++ rows := by
  intro df label store hne hty
  obtain ⟨rows, hm⟩ := mapRows_typed label df hty
  have hlen := mapRows_length label df rows hm
  have hsb : saveBatches label df = chunks500 rows := by
    rw [saveBatches, hm]
  refine ⟨rows, hm, hlen, hsb, ?_, ?_, ?_, ?_⟩
  · rw [hsb, chunks500_length, hlen]
  · rw [hsb]
    exact chunks500_batch_le rows
  · rw [hsb, chunks500_flatten]
  · rw [save_data, if_neg hne, hsb, chunks500_flatten]

/-- Witness for C9 at a concrete one-row table. -/
theorem claim_C9_witness :
    ∃ rows, mapRows Option.none [⟨Val.str "X", Val.str "", Val.str "", Val.str "",
        Val.str "", Val.str "", Val.nat_sentinel, Val.na⟩] = Option.some rows
      ∧ rows.length = ([⟨Val.str "X", Val.str "", Val.str "", Val.str "",
        Val.str "", Val.str "", Val.nat_sentinel, Val.na⟩] : List Row).length
      ∧ saveBatches Option.none [⟨Val.str "X", Val.str "", Val.str "", Val.str "",
        Val.str "", Val.str "", Val.nat_sentinel, Val.na⟩] = chunks500 rows
      ∧ (saveBatches Option.none [⟨Val.str "X", Val.str "", Val.str "", Val.str "",
        Val.str "", Val.str "", Val.nat_sentinel, Val.na⟩]).length
        = (([⟨Val.str "X", Val.str "", Val.str "", Val.str "",
        Val.str "", Val.str "", Val.nat_sentinel, Val.na⟩] : List Row).length + 499) / 500
      ∧ (∀ b ∈ saveBatches Option.none [⟨Val.str "X", Val.str "", Val.str "", Val.str "",
        Val.str "", Val.str "", Val.nat_sentinel, Val.na⟩], b.length ≤ 500)
      ∧ (saveBatches Option.none [⟨Val.str "X", Val.str "", Val.str "", Val.str "",
        Val.str "", Val.str "", Val.nat_sentinel, Val.na⟩]).flatten = rows
      ∧ save_data [] [⟨Val.str "X", Val.str "", Val.str "", Val.str "",
        Val.str "", Val.str "", Val.nat_sentinel, Val.na⟩] Option.none = deleteStep [] ++ rows :=
  claim_C9_insert_batching _ Option.none [] (by decide)
    (by intro r hr
        rw [List.mem_singleton] at hr
        subst hr
        exact ⟨Or.inl rfl, Or.inl rfl⟩)
